import Mathlib

/-!
Verification development for the HSKG repository.

Part 1 embeds `src/app/graph/builder.py` (class `HSKGBuilder`): the
`networkx.Graph` used there is modelled as association lists of node and
edge attribute records, with `add_edge` performing the attribute-merge
that `networkx.Graph.add_edge` performs on an existing edge.  The call to
`sklearn.metrics.pairwise.cosine_similarity` is external library code; it
is abstracted as the matrix `sims` handed to `build`, exactly the value
the Python code binds to `sims` before comparing entries to the
threshold.

Part 2 embeds `src/hskg/graph/{node,relation,knowledge_graph}.py` and
`src/hskg/db/in_memory_storage.py`.  Python dictionaries are modelled as
association lists with in-place update (`aupd`), timestamps as naturals
passed explicitly where the code calls `datetime.utcnow()`, and
exceptions as an error option returned next to the mutated state, so
that partially-applied mutations remain observable.
-/

deriving instance DecidableEq for Except

/-- Association-list lookup, mirroring Python `dict.get` / `d[k]`. -/
def alookup {α β : Type} [DecidableEq α] : List (α × β) → α → Option β
  | [], _ => none
  | (k, v) :: rest, a => if a = k then some v else alookup rest a

/-- Association-list update mirroring Python `d[k] = f(d.get(k))`:
an existing key keeps its position and gets the new value, a fresh key is
appended (dict insertion-order semantics). -/
def aupd {α β : Type} [DecidableEq α] : List (α × β) → α → (Option β → β) → List (α × β)
  | [], k, f => [(k, f none)]
  | (k', v) :: rest, k, f =>
      if k = k' then (k', f (some v)) :: rest else (k', v) :: aupd rest k f

/-- Remove the entry with the given key, mirroring Python `del d[k]`
(no-op when absent; callers guard presence). -/
def aremove {α β : Type} [DecidableEq α] : List (α × β) → α → List (α × β)
  | [], _ => []
  | (k', v) :: rest, k => if k = k' then rest else (k', v) :: aremove rest k

/-! ## Part 1: the builder (`src/app/graph/builder.py`) -/

/-- Attributes `networkx` stores on a node of the builder graph.  A node
created implicitly by `add_edge` has an empty attribute dict: all three
fields `none`.  `data.get("category")` then yields `None`, exactly as for
an explicit `category=None`. -/
structure NodeAttrs where
  text : Option String
  category : Option String
  embedding : Option (List ℚ)
deriving DecidableEq, Repr

/-- Attributes on an edge of the builder graph.  Both `add_edge` calls in
the source set `kind`, so it is always present once the edge exists. -/
structure EdgeAttrs where
  kind : String
  weight : Option ℚ
  label : Option String
deriving DecidableEq, Repr

/-- `networkx.Graph`: a simple undirected graph whose edges are keyed by
the unordered pair, canonicalised here as (min, max). -/
structure NXGraph where
  nodes : List (Nat × NodeAttrs)
  edges : List ((Nat × Nat) × EdgeAttrs)
deriving DecidableEq, Repr

def NXGraph.empty : NXGraph := ⟨[], []⟩

/-- `graph.add_node(i, **attrs)` with every attribute supplied. -/
def NXGraph.addNode (g : NXGraph) (i : Nat) (a : NodeAttrs) : NXGraph :=
  { g with nodes := aupd g.nodes i (fun _ => a) }

/-- Implicit node creation performed by `networkx` `add_edge`: an
existing node is untouched, a missing endpoint is created with an empty
attribute dict. -/
def NXGraph.ensureNode (g : NXGraph) (i : Nat) : NXGraph :=
  { g with nodes := aupd g.nodes i (fun old => old.getD ⟨none, none, none⟩) }

def canon (i j : Nat) : Nat × Nat := (min i j, max i j)

/-- `graph.add_edge(i, j, **kw)`: ensures both endpoints exist, then
merges the keyword attributes into the edge's attribute dict (creating
the edge if absent).  `upd` is the merge performed by the keyword
arguments at the call site. -/
def NXGraph.addEdge (g : NXGraph) (i j : Nat) (upd : EdgeAttrs → EdgeAttrs) : NXGraph :=
  { nodes := ((g.ensureNode i).ensureNode j).nodes,
    edges := aupd g.edges (canon i j) (fun old => upd (old.getD ⟨"", none, none⟩)) }

/-- Merge performed by `add_edge(i, j, kind="similarity", weight=w)`. -/
def simUpd (w : ℚ) (e : EdgeAttrs) : EdgeAttrs :=
  { e with kind := "similarity", weight := some w }

/-- Merge performed by `add_edge(a, b, kind="symbolic", label=cat)`. -/
def symUpd (c : String) (e : EdgeAttrs) : EdgeAttrs :=
  { e with kind := "symbolic", label := some c }

/-- The index pairs visited by `for i in range(n): for j in range(i+1, n)`. -/
def rangePairs (n : Nat) : List (Nat × Nat) :=
  (List.range n).flatMap fun i => (List.range' (i + 1) (n - (i + 1))).map fun j => (i, j)

/-- Body of the inner similarity loop:
`if sims[i, j] >= self.threshold: self.graph.add_edge(i, j, ...)`. -/
def simStep (t : ℚ) (sims : Nat → Nat → ℚ) (g : NXGraph) (p : Nat × Nat) : NXGraph :=
  if t ≤ sims p.1 p.2 then g.addEdge p.1 p.2 (simUpd (sims p.1 p.2)) else g

/-- `HSKGBuilder._add_similarity_edges`: `sims` is the matrix
`cosine_similarity(vectors)` and `n = sims.shape[0]` its row count. -/
def add_similarity_edges (t : ℚ) (sims : Nat → Nat → ℚ) (n : Nat) (g : NXGraph) : NXGraph :=
  (rangePairs n).foldl (simStep t sims) g

/-- Python truthiness of an optional string category (`if cat:`): both
`None` and the empty string are falsy. -/
def truthy : Option String → Option String
  | some c => if c = "" then none else some c
  | none => none

/-- All ordered index pairs `(l[i], l[j])`, `i < j`, of a list, in the
order the double loop of `_add_symbolic_edges` visits them. -/
def listPairs : List Nat → List (Nat × Nat)
  | [] => []
  | a :: rest => (rest.map fun b => (a, b)) ++ listPairs rest

/-- The `cat_groups` dict of `_add_symbolic_edges`: node ids grouped by
truthy category via `setdefault(cat, []).append(node)`. -/
def catGroupsFold (acc : List (String × List Nat)) (nl : List (Nat × NodeAttrs)) :
    List (String × List Nat) :=
  nl.foldl
    (fun acc p =>
      match truthy p.2.category with
      | some c => aupd acc c (fun old => old.getD [] ++ [p.1])
      | none => acc) acc

/-- Body of the inner symbolic loop:
`self.graph.add_edge(nodes[i], nodes[j], kind="symbolic", label=cat)`,
with the category carried next to the pair. -/
def symApply (g : NXGraph) (w : (Nat × Nat) × String) : NXGraph :=
  g.addEdge w.1.1 w.1.2 (symUpd w.2)

/-- `HSKGBuilder._add_symbolic_edges`. -/
def add_symbolic_edges (g : NXGraph) : NXGraph :=
  let cat_groups := catGroupsFold [] g.nodes
  cat_groups.foldl
    (fun g2 pr => (listPairs pr.2).foldl (fun g3 q => symApply g3 (q, pr.1)) g2) g

inductive BuildErr
  | indexError
deriving DecidableEq, Repr

/-- The node loop of `HSKGBuilder.build`: `for idx, (sent, cat) in
enumerate(zip(sentences, categories))`, where `vectors[idx]` raises an
`IndexError` once `idx` reaches the row count — the nodes added before
that point remain in the graph. -/
def node_phase (vectors : List (List ℚ)) :
    Nat → NXGraph → List (String × Option String) → NXGraph × Option BuildErr
  | _, g, [] => (g, none)
  | idx, g, (s, c) :: rest =>
      match vectors[idx]? with
      | none => (g, some .indexError)
      | some emb => node_phase vectors (idx + 1) (g.addNode idx ⟨some s, c, some emb⟩) rest

/-- `categories = categories or [None] * len(sentences)`: `None` and the
empty list are falsy and replaced by the all-null list. -/
def effCats (sentences : List String) : Option (List (Option String)) → List (Option String)
  | none => List.replicate sentences.length none
  | some [] => List.replicate sentences.length none
  | some cs => cs

structure HSKGBuilder where
  threshold : ℚ
  graph : NXGraph
deriving DecidableEq, Repr

/-- `HSKGBuilder.build(sentences, vectors, categories)`.  The graph is
cleared, nodes are added for the zipped prefix, then the two edge
layers.  The second component reports an escaped exception; the builder
state next to it is the state at the time of the raise. -/
def HSKGBuilder.build (b : HSKGBuilder) (sentences : List String)
    (vectors : List (List ℚ)) (sims : Nat → Nat → ℚ)
    (categories : Option (List (Option String))) : HSKGBuilder × Option BuildErr :=
  let cats := effCats sentences categories
  match node_phase vectors 0 NXGraph.empty (sentences.zip cats) with
  | (g, some e) => ({ b with graph := g }, some e)
  | (g, none) =>
      let g := add_similarity_edges b.threshold sims vectors.length g
      let g := add_symbolic_edges g
      ({ b with graph := g }, none)

/-! ## Part 2: the knowledge-graph model (`src/hskg/graph/`) and the
in-memory storage backend (`src/hskg/db/in_memory_storage.py`) -/

/-- The exceptions the hskg package can raise: `notFound` and
`danglingEndpoint` are the `ValueError`s of the lookup/endpoint guards
(the spec's `NotFound` / `DanglingEndpoint`), `nxError` a
`networkx` error on a missing node or edge, `keyError` an enum or index
`KeyError`, `valueError` any other `ValueError` (failed `list.remove`,
failed endpoint lookup in `Relation.from_dict`). -/
inductive KGErr
  | notFound | danglingEndpoint | nxError | keyError | valueError
deriving DecidableEq, Repr

/-- `NodeType` enum of `src/hskg/graph/node.py`. -/
inductive NodeType
  | ENTITY | CONCEPT | DOCUMENT | USER | PRODUCT | REVIEW
  | FEATURE | CATEGORY | INTENT | TOPIC | CUSTOM
deriving DecidableEq, Repr

/-- `self.type.name` for a `NodeType`. -/
def NodeType.name : NodeType → String
  | .ENTITY => "ENTITY"
  | .CONCEPT => "CONCEPT"
  | .DOCUMENT => "DOCUMENT"
  | .USER => "USER"
  | .PRODUCT => "PRODUCT"
  | .REVIEW => "REVIEW"
  | .FEATURE => "FEATURE"
  | .CATEGORY => "CATEGORY"
  | .INTENT => "INTENT"
  | .TOPIC => "TOPIC"
  | .CUSTOM => "CUSTOM"

/-- `NodeType[s]`: enum lookup by member name, `none` modelling the
`KeyError` on an unknown name. -/
def NodeType.ofName : String → Option NodeType
  | "ENTITY" => some .ENTITY
  | "CONCEPT" => some .CONCEPT
  | "DOCUMENT" => some .DOCUMENT
  | "USER" => some .USER
  | "PRODUCT" => some .PRODUCT
  | "REVIEW" => some .REVIEW
  | "FEATURE" => some .FEATURE
  | "CATEGORY" => some .CATEGORY
  | "INTENT" => some .INTENT
  | "TOPIC" => some .TOPIC
  | "CUSTOM" => some .CUSTOM
  | _ => none

/-- The iteration order `for node_type in NodeType`, used to seed the
type index in `KnowledgeGraph.__init__`. -/
def NodeType.all : List NodeType :=
  [.ENTITY, .CONCEPT, .DOCUMENT, .USER, .PRODUCT, .REVIEW,
   .FEATURE, .CATEGORY, .INTENT, .TOPIC, .CUSTOM]

/-- `RelationType` enum of `src/hskg/graph/relation.py`. -/
inductive RelationType
  | IS_A | PART_OF | HAS_PART | RELATED_TO | SIMILAR_TO | CAUSES
  | PRECEDES | LIKES | PREFERS | RATED | MENTIONS | DESCRIBES | CUSTOM
deriving DecidableEq, Repr

def RelationType.name : RelationType → String
  | .IS_A => "IS_A"
  | .PART_OF => "PART_OF"
  | .HAS_PART => "HAS_PART"
  | .RELATED_TO => "RELATED_TO"
  | .SIMILAR_TO => "SIMILAR_TO"
  | .CAUSES => "CAUSES"
  | .PRECEDES => "PRECEDES"
  | .LIKES => "LIKES"
  | .PREFERS => "PREFERS"
  | .RATED => "RATED"
  | .MENTIONS => "MENTIONS"
  | .DESCRIBES => "DESCRIBES"
  | .CUSTOM => "CUSTOM"

def RelationType.ofName : String → Option RelationType
  | "IS_A" => some .IS_A
  | "PART_OF" => some .PART_OF
  | "HAS_PART" => some .HAS_PART
  | "RELATED_TO" => some .RELATED_TO
  | "SIMILAR_TO" => some .SIMILAR_TO
  | "CAUSES" => some .CAUSES
  | "PRECEDES" => some .PRECEDES
  | "LIKES" => some .LIKES
  | "PREFERS" => some .PREFERS
  | "RATED" => some .RATED
  | "MENTIONS" => some .MENTIONS
  | "DESCRIBES" => some .DESCRIBES
  | "CUSTOM" => some .CUSTOM
  | _ => none

/-- `Node` of `src/hskg/graph/node.py`.  Property values are modelled as
strings (the code copies the mapping around without inspecting it);
timestamps as naturals (`datetime.isoformat`/`fromisoformat` round-trip
losslessly). -/
structure Node where
  id : String
  type : NodeType
  name : String
  properties : List (String × String)
  embedding : Option (List ℚ)
  created_at : Nat
  updated_at : Nat
  labels : List String
deriving DecidableEq, Repr

/-- The dictionary produced by `Node.to_dict`. -/
structure NodeDict where
  id : String
  type : String
  name : String
  properties : List (String × String)
  labels : List String
  created_at : Nat
  updated_at : Nat
  has_embedding : Bool
deriving DecidableEq, Repr

def Node.to_dict (n : Node) : NodeDict :=
  ⟨n.id, n.type.name, n.name, n.properties, n.labels,
   n.created_at, n.updated_at, n.embedding.isSome⟩

/-- `Node.from_dict`: builds the node through the constructor (which
leaves `embedding` unset) and then overwrites id, labels and
timestamps.  `NodeType[data['type']]` raises `KeyError` on an unknown
name. -/
def Node.from_dict (d : NodeDict) : Except KGErr Node :=
  match NodeType.ofName d.type with
  | none => .error .keyError
  | some t =>
      .ok ⟨d.id, t, d.name, d.properties, none, d.created_at, d.updated_at, d.labels⟩

/-- `Relation` of `src/hskg/graph/relation.py`; `source`/`target` hold
the referenced node objects, as in the Python code. -/
structure Relation where
  id : String
  source : Node
  target : Node
  type : RelationType
  properties : List (String × String)
  created_at : Nat
  updated_at : Nat
deriving DecidableEq, Repr

/-- The dictionary produced by `Relation.to_dict`. -/
structure RelDict where
  id : String
  source_id : String
  target_id : String
  type : String
  properties : List (String × String)
  created_at : Nat
  updated_at : Nat
deriving DecidableEq, Repr

def Relation.to_dict (r : Relation) : RelDict :=
  ⟨r.id, r.source.id, r.target.id, r.type.name, r.properties,
   r.created_at, r.updated_at⟩

/-- `Relation.from_dict(data, node_lookup)`: endpoint lookup failure
raises `ValueError`, an unknown enum name `KeyError`. -/
def Relation.from_dict (d : RelDict) (node_lookup : List (String × Node)) :
    Except KGErr Relation :=
  match alookup node_lookup d.source_id, alookup node_lookup d.target_id with
  | some s, some t =>
      match RelationType.ofName d.type with
      | none => .error .keyError
      | some ty => .ok ⟨d.id, s, t, ty, d.properties, d.created_at, d.updated_at⟩
  | _, _ => .error .valueError

/-- `networkx.MultiDiGraph`: nodes keyed by id (`none` would be a node
created implicitly with an empty attribute dict), edges keyed by
`(source id, target id, key)`. -/
structure MultiDiGraph where
  nodes : List (String × Option NodeDict)
  edges : List ((String × String × String) × RelDict)
deriving DecidableEq, Repr

def MultiDiGraph.empty : MultiDiGraph := ⟨[], []⟩

/-- `graph.add_node(id, **node.to_dict())`. -/
def MultiDiGraph.add_node (G : MultiDiGraph) (i : String) (d : NodeDict) : MultiDiGraph :=
  { G with nodes := aupd G.nodes i (fun _ => some d) }

/-- Implicit endpoint creation performed by `add_edge`. -/
def MultiDiGraph.ensure (G : MultiDiGraph) (i : String) : MultiDiGraph :=
  { G with nodes := aupd G.nodes i (fun old => old.getD none) }

/-- `graph.add_edge(u, v, key=k, **d)`: `d` carries every edge
attribute, so the attribute-dict merge amounts to replacement. -/
def MultiDiGraph.add_edge (G : MultiDiGraph) (u v k : String) (d : RelDict) :
    MultiDiGraph :=
  { nodes := ((G.ensure u).ensure v).nodes,
    edges := aupd G.edges (u, v, k) (fun _ => d) }

/-- `graph.remove_node(id)`: removes the node and every incident edge;
raises (`none`) when the node is absent. -/
def MultiDiGraph.remove_node (G : MultiDiGraph) (i : String) : Option MultiDiGraph :=
  if i ∈ G.nodes.map Prod.fst then
    some ⟨aremove G.nodes i,
          G.edges.filter fun e => decide (e.1.1 ≠ i) && decide (e.1.2.1 ≠ i)⟩
  else none

/-- `graph.remove_edge(u, v, key=k)`: raises (`none`) when no such edge
exists. -/
def MultiDiGraph.remove_edge (G : MultiDiGraph) (u v k : String) : Option MultiDiGraph :=
  if (u, v, k) ∈ G.edges.map Prod.fst then
    some { G with edges := aremove G.edges (u, v, k) }
  else none

/-- `KnowledgeGraph` of `src/hskg/graph/knowledge_graph.py`. -/
structure KnowledgeGraph where
  name : String
  nodes : List (String × Node)
  relations : List (String × Relation)
  node_name_index : List (String × List Node)
  node_type_index : List (NodeType × List Node)
  graph : MultiDiGraph
deriving DecidableEq, Repr

/-- `KnowledgeGraph.__init__`: empty maps, type index seeded with an
empty list for every `NodeType`. -/
def KnowledgeGraph.init (name : String) : KnowledgeGraph :=
  ⟨name, [], [], [], NodeType.all.map (fun t => (t, [])), MultiDiGraph.empty⟩

/-- `list.remove(node)` on an index bucket: removes the first element
equal to the node — `Node.__eq__` compares by id — and raises
(`none`) when no element matches. -/
def removeNodeById : List Node → String → Option (List Node)
  | [], _ => none
  | n :: rest, i =>
      if n.id = i then some rest else (removeNodeById rest i).map (n :: ·)

/-- `KnowledgeGraph.update_node(node)`.  The call sites of each mutation
mirror the statement order of the Python method, so the state returned
next to an error is the state at the raise. -/
def KnowledgeGraph.update_node (kg : KnowledgeGraph) (node : Node) (now : Nat) :
    KnowledgeGraph × Option KGErr :=
  match alookup kg.nodes node.id with
  | none => (kg, some .notFound)
  | some old_node =>
      match alookup kg.node_name_index old_node.name with
      | none => (kg, some .keyError)
      | some bucket =>
          match removeNodeById bucket old_node.id with
          | none => (kg, some .valueError)
          | some bucket2 =>
              let nni :=
                if bucket2 = [] then aremove kg.node_name_index old_node.name
                else aupd kg.node_name_index old_node.name (fun _ => bucket2)
              match removeNodeById ((alookup kg.node_type_index old_node.type).getD [])
                  old_node.id with
              | none => ({ kg with node_name_index := nni }, some .valueError)
              | some tbucket2 =>
                  let nti := aupd kg.node_type_index old_node.type (fun _ => tbucket2)
                  let node2 : Node := { node with updated_at := now }
                  let nodes2 := aupd kg.nodes node.id (fun _ => node2)
                  let nni2 := aupd nni node2.name (fun old => old.getD [] ++ [node2])
                  let nti2 := aupd nti node2.type (fun old => old.getD [] ++ [node2])
                  let kg2 : KnowledgeGraph :=
                    { kg with nodes := nodes2, node_name_index := nni2,
                              node_type_index := nti2 }
                  match kg.graph.remove_node node.id with
                  | none => (kg2, some .nxError)
                  | some G2 =>
                      ({ kg2 with graph := G2.add_node node.id node2.to_dict }, none)

/-- `KnowledgeGraph.add_node(node)`: an existing id turns the call into
an update; otherwise the node is inserted into the map, both indices and
the structural view.  (`__init__` seeds the type index with every
`NodeType`, so the bucket `node_type_index[node.type]` is present.) -/
def KnowledgeGraph.add_node (kg : KnowledgeGraph) (node : Node) (now : Nat) :
    KnowledgeGraph × Option KGErr :=
  if (alookup kg.nodes node.id).isSome then kg.update_node node now
  else
    ({ kg with
        nodes := kg.nodes ++ [(node.id, node)],
        node_name_index := aupd kg.node_name_index node.name
          (fun old => old.getD [] ++ [node]),
        node_type_index := aupd kg.node_type_index node.type
          (fun old => old.getD [] ++ [node]),
        graph := kg.graph.add_node node.id node.to_dict }, none)

/-- `KnowledgeGraph.update_relation(relation)`: the relation map is
overwritten (with a refreshed timestamp) before the structural view is
touched; the edge removal uses the *passed* relation's source and target
ids, and raises when no edge sits at that key. -/
def KnowledgeGraph.update_relation (kg : KnowledgeGraph) (rel : Relation) (now : Nat) :
    KnowledgeGraph × Option KGErr :=
  if (alookup kg.relations rel.id).isSome then
    let rel2 : Relation := { rel with updated_at := now }
    let rels2 := aupd kg.relations rel.id (fun _ => rel2)
    match kg.graph.remove_edge rel.source.id rel.target.id rel.id with
    | none => ({ kg with relations := rels2 }, some .nxError)
    | some G2 =>
        ({ kg with relations := rels2,
                   graph := G2.add_edge rel2.source.id rel2.target.id rel2.id
                     rel2.to_dict }, none)
  else (kg, some .notFound)

/-- `KnowledgeGraph.add_relation(relation)`: endpoint existence is
checked first (`ValueError`, the spec's `DanglingEndpoint`), then an
existing id turns the call into an update, otherwise the relation is
appended to the map and the structural view. -/
def KnowledgeGraph.add_relation (kg : KnowledgeGraph) (rel : Relation) (now : Nat) :
    KnowledgeGraph × Option KGErr :=
  if (alookup kg.nodes rel.source.id).isNone then (kg, some .danglingEndpoint)
  else if (alookup kg.nodes rel.target.id).isNone then (kg, some .danglingEndpoint)
  else if (alookup kg.relations rel.id).isSome then kg.update_relation rel now
  else
    ({ kg with
        relations := kg.relations ++ [(rel.id, rel)],
        graph := kg.graph.add_edge rel.source.id rel.target.id rel.id
          rel.to_dict }, none)

/-- The structure produced by `KnowledgeGraph.to_dict`. -/
structure GraphDict where
  name : String
  nodes : List NodeDict
  relations : List RelDict
deriving DecidableEq, Repr

def KnowledgeGraph.to_dict (kg : KnowledgeGraph) : GraphDict :=
  ⟨kg.name, kg.nodes.map (fun p => p.2.to_dict), kg.relations.map (fun p => p.2.to_dict)⟩

/-- The node loop of `KnowledgeGraph.from_dict`: materialise every node,
recording it in `node_lookup` keyed by its id. -/
def fromDictNodes (now : Nat) :
    List NodeDict → KnowledgeGraph → List (String × Node) →
      Except KGErr (KnowledgeGraph × List (String × Node))
  | [], kg, lu => .ok (kg, lu)
  | nd :: rest, kg, lu =>
      match Node.from_dict nd with
      | .error e => .error e
      | .ok node =>
          match kg.add_node node now with
          | (kg2, none) => fromDictNodes now rest kg2 (aupd lu node.id (fun _ => node))
          | (_, some e) => .error e

/-- The relation loop of `KnowledgeGraph.from_dict`. -/
def fromDictRels (now : Nat) :
    List RelDict → KnowledgeGraph → List (String × Node) → Except KGErr KnowledgeGraph
  | [], kg, _ => .ok kg
  | rd :: rest, kg, lu =>
      match Relation.from_dict rd lu with
      | .error e => .error e
      | .ok rel =>
          match kg.add_relation rel now with
          | (kg2, none) => fromDictRels now rest kg2 lu
          | (_, some e) => .error e

/-- `KnowledgeGraph.from_dict`: nodes first (so endpoints resolve), then
relations. -/
def KnowledgeGraph.from_dict (d : GraphDict) (now : Nat) : Except KGErr KnowledgeGraph :=
  match fromDictNodes now d.nodes (KnowledgeGraph.init d.name) [] with
  | .error e => .error e
  | .ok (kg, lu) => fromDictRels now d.relations kg lu

/-- A stored node row of `InMemoryStorage.nodes`: the node's dict plus
the owning `graph_id`, keyed in the store by the node id alone. -/
structure StoredNode where
  data : NodeDict
  graph_id : String
deriving DecidableEq, Repr

/-- A stored relation row of `InMemoryStorage.relations`: the relation's
dict (its `id` overwritten with the fresh row id) plus the owning
`graph_id`. -/
structure StoredRel where
  data : RelDict
  graph_id : String
deriving DecidableEq, Repr

/-- A row of `InMemoryStorage.graphs`. -/
structure GraphMeta where
  id : String
  name : String
  created_at : Nat
  updated_at : Nat
  node_count : Nat
  relation_count : Nat
deriving DecidableEq, Repr

structure InMemoryStorage where
  graphs : List (String × GraphMeta)
  nodes : List (String × StoredNode)
  relations : List (String × StoredRel)
deriving DecidableEq, Repr

def InMemoryStorage.empty : InMemoryStorage := ⟨[], [], []⟩

/-- `name or graph.name`: `None` and the empty string are falsy. -/
def pyOr (name : Option String) (fallback : String) : String :=
  match name with
  | none => fallback
  | some s => if s = "" then fallback else s

/-- `InMemoryStorage.save_graph(graph, name)`.  The `uuid4` draws are
passed in: `gid` for the graph id and `relIds` for the per-relation row
ids (zipped against the relation dicts, as the loop draws one per
relation).  Node rows are keyed by `node_data['id']` alone. -/
def InMemoryStorage.save_graph (st : InMemoryStorage) (g : KnowledgeGraph)
    (name : Option String) (gid : String) (relIds : List String) (now : Nat) :
    InMemoryStorage × String :=
  let gd := g.to_dict
  let graphs2 := aupd st.graphs gid
    (fun _ => ⟨gid, pyOr name g.name, now, now, gd.nodes.length, gd.relations.length⟩)
  let nodes2 := gd.nodes.foldl
    (fun acc nd => aupd acc nd.id (fun _ => ⟨nd, gid⟩)) st.nodes
  let rels2 := (gd.relations.zip relIds).foldl
    (fun acc p => aupd acc p.2 (fun _ => ⟨{ p.1 with id := p.2 }, gid⟩)) st.relations
  (⟨graphs2, nodes2, rels2⟩, gid)

/-- The node loop of `InMemoryStorage.load_graph`: rows are filtered by
`graph_id`, rebuilt into `Node` values, added to the graph and recorded
in `node_lookup` under their row key. -/
def loadNodes (gid : String) (now : Nat) :
    List (String × StoredNode) → KnowledgeGraph → List (String × Node) →
      Except KGErr (KnowledgeGraph × List (String × Node))
  | [], kg, lu => .ok (kg, lu)
  | (key, sn) :: rest, kg, lu =>
      if sn.graph_id = gid then
        match NodeType.ofName sn.data.type with
        | none => .error .keyError
        | some t =>
            let node : Node :=
              ⟨sn.data.id, t, sn.data.name, sn.data.properties, none,
               sn.data.created_at, sn.data.updated_at, sn.data.labels⟩
            match kg.add_node node now with
            | (kg2, none) => loadNodes gid now rest kg2 (aupd lu key (fun _ => node))
            | (_, some e) => .error e
      else loadNodes gid now rest kg lu

/-- The relation loop of `InMemoryStorage.load_graph`: rows are filtered
by `graph_id`; a row whose endpoints are missing from `node_lookup` is
silently skipped. -/
def loadRels (gid : String) (now : Nat) :
    List (String × StoredRel) → KnowledgeGraph → List (String × Node) →
      Except KGErr KnowledgeGraph
  | [], kg, _ => .ok kg
  | (_, sr) :: rest, kg, lu =>
      if sr.graph_id = gid then
        match alookup lu sr.data.source_id, alookup lu sr.data.target_id with
        | some s, some t =>
            match RelationType.ofName sr.data.type with
            | none => .error .keyError
            | some ty =>
                let rel : Relation :=
                  ⟨sr.data.id, s, t, ty, sr.data.properties,
                   sr.data.created_at, sr.data.updated_at⟩
                match kg.add_relation rel now with
                | (kg2, none) => loadRels gid now rest kg2 lu
                | (_, some e) => .error e
        | _, _ => loadRels gid now rest kg lu
      else loadRels gid now rest kg lu

/-- `InMemoryStorage.load_graph(graph_id)`: `ValueError` (modelled as
`notFound`) when the id is unknown, else rebuild nodes then relations. -/
def InMemoryStorage.load_graph (st : InMemoryStorage) (gid : String) (now : Nat) :
    Except KGErr KnowledgeGraph :=
  match alookup st.graphs gid with
  | none => .error .notFound
  | some meta =>
      match loadNodes gid now st.nodes (KnowledgeGraph.init meta.name) [] with
      | .error e => .error e
      | .ok (kg, lu) => loadRels gid now st.relations kg lu

/-! ## Specification-side helper definitions (used only in statements and
proofs, not part of the embedding) -/

/-- Concrete nodes, relation and graphs used by witnesses and
counterexamples. -/
def exNodeA : Node := ⟨"a", .ENTITY, "A", [], none, 0, 0, ["ENTITY"]⟩

def exNodeB : Node := ⟨"b", .ENTITY, "B", [], none, 0, 0, ["ENTITY"]⟩

def exRel : Relation := ⟨"r1", exNodeA, exNodeB, .RELATED_TO, [], 0, 0⟩

/-- `exRel` with source and target swapped (same relation id). -/
def exRelSwap : Relation := ⟨"r1", exNodeB, exNodeA, .RELATED_TO, [], 0, 0⟩

/-- A graph with nodes `a`, `b` and the relation `r1 : a → b`, built
through the public mutators. -/
def exKG2 : KnowledgeGraph :=
  (((((KnowledgeGraph.init "G").add_node exNodeA 0).1.add_node
    exNodeB 0).1.add_relation exRel 0).1)

/-- The per-relation signature compared across the serialisation
round-trip: id (map key and field), endpoint ids, type, properties and
timestamps. -/
def relSig (p : String × Relation) :
    String × String × String × String × RelationType ×
      List (String × String) × Nat × Nat :=
  (p.1, p.2.id, p.2.source.id, p.2.target.id, p.2.type, p.2.properties,
   p.2.created_at, p.2.updated_at)

/-- Reachable-state shape of a `KnowledgeGraph`: maps keyed by the
entity's own id, duplicate-free, and every relation endpoint present in
the node map. -/
def wellFormedKG (kg : KnowledgeGraph) : Prop :=
  (∀ p ∈ kg.nodes, p.1 = p.2.id) ∧
  (kg.nodes.map Prod.fst).Nodup ∧
  (∀ p ∈ kg.relations, p.1 = p.2.id) ∧
  (kg.relations.map Prod.fst).Nodup ∧
  (∀ p ∈ kg.relations, p.2.source.id ∈ kg.nodes.map Prod.fst ∧
    p.2.target.id ∈ kg.nodes.map Prod.fst)


/-- `enumerate` starting at `k`. -/
def enumF {α : Type} (k : Nat) : List α → List (Nat × α)
  | [] => []
  | x :: xs => (k, x) :: enumF (k + 1) xs

/-- The node entry `build` creates for `(idx, (sent, cat))`. -/
def nodeEntry (vectors : List (List ℚ)) (q : Nat × (String × Option String)) :
    Nat × NodeAttrs :=
  (q.1, ⟨some q.2.1, q.2.2, some ((vectors[q.1]?).getD [])⟩)

/-- The edge list the similarity pass produces from a pair list. -/
def simEdgeList (t : ℚ) (sims : Nat → Nat → ℚ) (ps : List (Nat × Nat)) :
    List ((Nat × Nat) × EdgeAttrs) :=
  ps.filterMap fun p =>
    if t ≤ sims p.1 p.2 then some (p, ⟨"similarity", some (sims p.1 p.2), none⟩) else none

/-- Node ids of a node list whose truthy category is `c`, in list order. -/
def catMembers (c : String) (nl : List (Nat × NodeAttrs)) : List Nat :=
  nl.filterMap fun p => if truthy p.2.category = some c then some p.1 else none

/-- The symbolic pass flattened to one write list. -/
def symWrites (groups : List (String × List Nat)) : List ((Nat × Nat) × String) :=
  groups.flatMap fun pr => (listPairs pr.2).map fun q => (q, pr.1)

/-- The truthy category of input item `i`. -/
def tcat (cs : List (Option String)) (i : Nat) : Option String :=
  truthy ((cs[i]?).getD none)

/-! ## Lemmas about the dictionary model -/

theorem alookup_aupd_self {α β : Type} [DecidableEq α] (l : List (α × β)) (k : α)
    (f : Option β → β) : alookup (aupd l k f) k = some (f (alookup l k)) := by
  induction l with
  | nil => simp [aupd, alookup]
  | cons p rest ih =>
      by_cases h : k = p.1
      · simp [aupd, alookup, h]
      · simp [aupd, alookup, h, ih]

theorem alookup_aupd_ne {α β : Type} [DecidableEq α] (l : List (α × β)) {a k : α}
    (f : Option β → β) (h : a ≠ k) : alookup (aupd l k f) a = alookup l a := by
  induction l with
  | nil => simp [aupd, alookup, h]
  | cons p rest ih =>
      by_cases hk : k = p.1
      · subst hk; simp [aupd, alookup, h]
      · by_cases ha : a = p.1 <;> simp [aupd, alookup, hk, ha, ih]

theorem aupd_not_mem {α β : Type} [DecidableEq α] {l : List (α × β)} {k : α}
    (f : Option β → β) (h : k ∉ l.map Prod.fst) : aupd l k f = l ++ [(k, f none)] := by
  induction l with
  | nil => simp [aupd]
  | cons p rest ih =>
      simp only [List.map_cons, List.mem_cons] at h
      push_neg at h
      simp [aupd, h.1, ih h.2]

theorem aupd_map_fst {α β : Type} [DecidableEq α] (l : List (α × β)) (k : α)
    (f : Option β → β) :
    (aupd l k f).map Prod.fst =
      (if k ∈ l.map Prod.fst then l.map Prod.fst else l.map Prod.fst ++ [k]) := by
  induction l with
  | nil => simp [aupd]
  | cons p rest ih =>
      by_cases h : k = p.1
      · simp [aupd, h]
      · simp only [aupd, if_neg h, List.map_cons, ih, List.mem_cons]
        by_cases hm : k ∈ rest.map Prod.fst <;> simp [hm, h]

theorem aupd_keys_nodup {α β : Type} [DecidableEq α] {l : List (α × β)} (k : α)
    (f : Option β → β) (h : (l.map Prod.fst).Nodup) :
    ((aupd l k f).map Prod.fst).Nodup := by
  rw [aupd_map_fst]
  by_cases hm : k ∈ l.map Prod.fst
  · simpa [hm]
  · simpa [hm] using List.Nodup.append h (by simp) (by simpa using hm)

theorem mem_aupd {α β : Type} [DecidableEq α] {l : List (α × β)} {k : α}
    {f : Option β → β} {p : α × β} (h : p ∈ aupd l k f) :
    p ∈ l ∨ (p.1 = k ∧ ∃ o, p.2 = f o) := by
  induction l with
  | nil =>
      simp only [aupd, List.mem_singleton] at h
      exact Or.inr (by simp [h])
  | cons q rest ih =>
      by_cases hk : k = q.1
      · simp only [aupd, if_pos hk, List.mem_cons] at h
        rcases h with h | h
        · exact Or.inr (by simp [h, ← hk])
        · exact Or.inl (List.mem_cons_of_mem _ h)
      · simp only [aupd, if_neg hk, List.mem_cons] at h
        rcases h with h | h
        · exact Or.inl (by simp [h])
        · rcases ih h with h2 | h2
          · exact Or.inl (List.mem_cons_of_mem _ h2)
          · exact Or.inr h2

theorem alookup_eq_none {α β : Type} [DecidableEq α] {l : List (α × β)} {k : α} :
    alookup l k = none ↔ k ∉ l.map Prod.fst := by
  induction l with
  | nil => simp [alookup]
  | cons p rest ih =>
      by_cases h : k = p.1 <;> simp [alookup, h, ih]

theorem alookup_isSome {α β : Type} [DecidableEq α] {l : List (α × β)} {k : α} :
    (alookup l k).isSome ↔ k ∈ l.map Prod.fst := by
  rcases h : alookup l k with _ | v
  · simpa using alookup_eq_none.mp h
  · simp only [Option.isSome_some, true_iff]
    by_contra hm
    rw [alookup_eq_none.mpr hm] at h
    exact Option.noConfusion h

theorem alookup_mem {α β : Type} [DecidableEq α] {l : List (α × β)} {k : α} {v : β}
    (h : alookup l k = some v) : (k, v) ∈ l := by
  induction l with
  | nil => simp [alookup] at h
  | cons p rest ih =>
      by_cases hk : k = p.1
      · simp only [alookup, if_pos hk] at h
        have hv := Option.some.inj h
        exact List.mem_cons.mpr (Or.inl (by rw [hk, ← hv]))
      · simp only [alookup, if_neg hk] at h
        exact List.mem_cons_of_mem _ (ih h)

theorem alookup_of_mem_nodup {α β : Type} [DecidableEq α] {l : List (α × β)} {k : α}
    {v : β} (hn : (l.map Prod.fst).Nodup) (h : (k, v) ∈ l) : alookup l k = some v := by
  induction l with
  | nil => simp at h
  | cons p rest ih =>
      simp only [List.map_cons, List.nodup_cons] at hn
      rcases List.mem_cons.mp h with h1 | h1
      · simp [alookup, ← h1]
      · have hk : k ≠ p.1 := by
          intro he
          exact hn.1 (he ▸ (List.mem_map.mpr ⟨(k, v), h1, rfl⟩))
        simp [alookup, hk, ih hn.2 h1]


/-! ## Lemmas about the builder -/

theorem canon_lt {i j : Nat} (h : i < j) : canon i j = (i, j) := by
  simp [canon, Nat.min_eq_left (Nat.le_of_lt h), Nat.max_eq_right (Nat.le_of_lt h)]

theorem aupd_getD_mem {α β : Type} [DecidableEq α] {l : List (α × β)} {k : α} (d : β)
    (h : k ∈ l.map Prod.fst) : aupd l k (fun old => old.getD d) = l := by
  induction l with
  | nil => simp at h
  | cons p rest ih =>
      by_cases hk : k = p.1
      · simp [aupd, hk]
      · simp only [List.map_cons, List.mem_cons] at h
        rcases h with h | h
        · exact absurd h hk
        · simp [aupd, hk, ih h]

theorem ensureNode_mem {g : NXGraph} {i : Nat} (h : i ∈ g.nodes.map Prod.fst) :
    g.ensureNode i = g := by
  simp [NXGraph.ensureNode, aupd_getD_mem _ h]

theorem addEdge_nodes_mem {g : NXGraph} {i j : Nat}
    (hi : i ∈ g.nodes.map Prod.fst) (hj : j ∈ g.nodes.map Prod.fst)
    (upd : EdgeAttrs → EdgeAttrs) : (g.addEdge i j upd).nodes = g.nodes := by
  simp [NXGraph.addEdge, ensureNode_mem hi, ensureNode_mem hj]

theorem enumF_map_fst {α : Type} : ∀ (l : List α) (k : Nat),
    (enumF k l).map Prod.fst = List.range' k l.length := by
  intro l
  induction l with
  | nil => intro k; simp [enumF]
  | cons x xs ih => intro k; simp [enumF, List.range'_succ, ih]

theorem mem_enumF {α : Type} : ∀ {l : List α} {k : Nat} {q : Nat × α},
    q ∈ enumF k l ↔ ∃ m : Nat, q.1 = k + m ∧ l[m]? = some q.2 := by
  intro l
  induction l with
  | nil => intro k q; simp [enumF]
  | cons x xs ih =>
      intro k q
      constructor
      · intro h
        rcases List.mem_cons.mp h with h | h
        · exact ⟨0, by simp [h]⟩
        · rcases ih.mp h with ⟨m, hm1, hm2⟩
          exact ⟨m + 1, by omega, by simpa using hm2⟩
      · rintro ⟨m, hm1, hm2⟩
        match m with
        | 0 =>
            simp only [List.getElem?_cons_zero, Option.some.injEq] at hm2
            exact List.mem_cons.mpr (Or.inl (by
              rcases q with ⟨q1, q2⟩
              simp only at hm1 hm2
              simp [hm1, hm2]))
        | m + 1 =>
            refine List.mem_cons.mpr (Or.inr (ih.mpr ⟨m, by omega, by simpa using hm2⟩))

theorem node_phase_spec (vectors : List (List ℚ)) :
    ∀ (l : List (String × Option String)) (k : Nat) (g : NXGraph),
      k ≤ vectors.length →
      (∀ p ∈ g.nodes, p.1 < k) →
      node_phase vectors k g l =
        (⟨g.nodes ++ (enumF k (l.take (vectors.length - k))).map (nodeEntry vectors),
          g.edges⟩,
         if k + l.length ≤ vectors.length then none else some .indexError) := by
  intro l
  induction l with
  | nil =>
      intro k g hk _
      simp [node_phase, enumF, Nat.add_zero, hk]
  | cons q rest ih =>
      intro k g hk hlt
      rcases q with ⟨s, c⟩
      by_cases hkl : k < vectors.length
      · have hsome : vectors[k]? = some vectors[k] := List.getElem?_eq_getElem hkl
        have hnotin : k ∉ g.nodes.map Prod.fst := by
          intro hmem
          rcases List.mem_map.mp hmem with ⟨p, hp, hfst⟩
          exact absurd (hfst ▸ hlt p hp) (lt_irrefl k)
        have haddnodes :
            (g.addNode k ⟨some s, c, some vectors[k]⟩).nodes =
              g.nodes ++ [(k, ⟨some s, c, some vectors[k]⟩)] := by
          simp [NXGraph.addNode, aupd_not_mem _ hnotin]
        have hbound : ∀ p ∈ (g.addNode k ⟨some s, c, some vectors[k]⟩).nodes,
            p.1 < k + 1 := by
          intro p hp
          rw [haddnodes] at hp
          rcases List.mem_append.mp hp with hp | hp
          · exact Nat.lt_succ_of_lt (hlt p hp)
          · simp only [List.mem_singleton] at hp
            simp [hp]
        have hrec := ih (k + 1) (g.addNode k ⟨some s, c, some vectors[k]⟩) hkl hbound
        have hstep :
            node_phase vectors k g ((s, c) :: rest) =
              node_phase vectors (k + 1) (g.addNode k ⟨some s, c, some vectors[k]⟩) rest := by
          rw [node_phase, hsome]
        rw [hstep, hrec]
        have htake : (vectors.length - k) = (vectors.length - (k + 1)) + 1 := by omega
        have htk :
            ((s, c) :: rest).take (vectors.length - k) =
              (s, c) :: rest.take (vectors.length - (k + 1)) := by
          rw [htake]; rfl
        have hne : nodeEntry vectors (k, (s, c)) = (k, ⟨some s, c, some vectors[k]⟩) := by
          simp [nodeEntry, hsome]
        rw [Prod.ext_iff]
        refine ⟨?_, ?_⟩
        · rw [htk]
          simp only [enumF, List.map_cons, hne, haddnodes]
          have hedges : (g.addNode k ⟨some s, c, some vectors[k]⟩).edges = g.edges := rfl
          rw [hedges]
          simp
        · have harith : k + 1 + rest.length = k + ((s, c) :: rest).length := by
            simp only [List.length_cons]
            omega
          rw [harith]
      · have hnone : vectors[k]? = none := by
          rw [List.getElem?_eq_none_iff]
          omega
        have hstep :
            node_phase vectors k g ((s, c) :: rest) = (g, some .indexError) := by
          rw [node_phase, hnone]
        rw [hstep]
        have htz : vectors.length - k = 0 := by omega
        have hcond : ¬(k + ((s, c) :: rest).length ≤ vectors.length) := by
          simp only [List.length_cons]
          omega
        simp only [htz, List.take_zero, enumF, List.map_nil, List.append_nil]
        have : ¬(k + ((s, c) :: rest).length ≤ vectors.length) := hcond
        rw [if_neg this]

theorem mem_rangePairs {n : Nat} {p : Nat × Nat} :
    p ∈ rangePairs n ↔ p.1 < p.2 ∧ p.2 < n := by
  rcases p with ⟨i, j⟩
  simp only [rangePairs, List.mem_flatMap, List.mem_map, List.mem_range,
    List.mem_range'_1, Prod.mk.injEq]
  constructor
  · rintro ⟨a, ha, j2, ⟨h1, h2⟩, rfl, rfl⟩
    omega
  · rintro ⟨h1, h2⟩
    exact ⟨i, by omega, j, ⟨by omega, by omega⟩, rfl, rfl⟩

theorem nodup_rangePairs (n : Nat) : (rangePairs n).Nodup := by
  rw [rangePairs, List.nodup_flatMap]
  refine ⟨fun i _ => ?_, ?_⟩
  · exact (List.nodup_range' (s := i + 1) (n := n - (i + 1))).map
      (fun a b h => by simpa using congrArg Prod.snd h)
  · have hpl : (List.range n).Pairwise (· < ·) := List.pairwise_lt_range n
    refine hpl.imp ?_
    intro a b hab
    intro x hxa hxb
    rcases List.mem_map.mp hxa with ⟨j1, _, hj1⟩
    rcases List.mem_map.mp hxb with ⟨j2, _, hj2⟩
    have h1 : x.1 = a := by rw [← hj1]
    have h2 : x.1 = b := by rw [← hj2]
    omega

theorem sim_fold_edges (t : ℚ) (sims : Nat → Nat → ℚ) :
    ∀ (ps : List (Nat × Nat)) (g : NXGraph), ps.Nodup →
      (∀ p ∈ ps, p.1 < p.2) →
      (∀ p ∈ ps, p ∉ g.edges.map Prod.fst) →
      (ps.foldl (simStep t sims) g).edges = g.edges ++ simEdgeList t sims ps := by
  intro ps
  induction ps with
  | nil => intro g _ _ _; simp [simEdgeList]
  | cons p rest ih =>
      intro g hnd hlt hnotin
      have hndr := (List.nodup_cons.mp hnd).2
      have hpnr := (List.nodup_cons.mp hnd).1
      simp only [List.foldl_cons]
      by_cases hcond : t ≤ sims p.1 p.2
      · have hck : canon p.1 p.2 = p := canon_lt (hlt p (List.mem_cons_self p rest))
        have hedges : (simStep t sims g p).edges =
            g.edges ++ [(p, ⟨"similarity", some (sims p.1 p.2), none⟩)] := by
          simp only [simStep, if_pos hcond, NXGraph.addEdge, hck]
          rw [aupd_not_mem _ (hnotin p (List.mem_cons_self p rest))]
          rfl
        have hrest : ∀ q ∈ rest, q ∉ (simStep t sims g p).edges.map Prod.fst := by
          intro q hq
          rw [hedges]
          simp only [List.map_append, List.mem_append, List.map_cons, List.map_nil]
          rintro (h | h)
          · exact hnotin q (List.mem_cons_of_mem _ hq) h
          · simp only [List.mem_singleton] at h
            exact hpnr (h ▸ hq)
        rw [ih (simStep t sims g p) hndr (fun q hq => hlt q (List.mem_cons_of_mem _ hq))
          hrest, hedges]
        simp [simEdgeList, hcond]
      · have hstep : simStep t sims g p = g := by simp [simStep, hcond]
        rw [hstep, ih g hndr (fun q hq => hlt q (List.mem_cons_of_mem _ hq))
          (fun q hq => hnotin q (List.mem_cons_of_mem _ hq))]
        simp [simEdgeList, hcond]

theorem sim_fold_nodes (t : ℚ) (sims : Nat → Nat → ℚ) :
    ∀ (ps : List (Nat × Nat)) (g : NXGraph),
      (∀ p ∈ ps, t ≤ sims p.1 p.2 →
        p.1 ∈ g.nodes.map Prod.fst ∧ p.2 ∈ g.nodes.map Prod.fst) →
      (ps.foldl (simStep t sims) g).nodes = g.nodes := by
  intro ps
  induction ps with
  | nil => intro g _; rfl
  | cons p rest ih =>
      intro g h
      have h1 : (simStep t sims g p).nodes = g.nodes := by
        by_cases hcond : t ≤ sims p.1 p.2
        · have hp := h p (List.mem_cons_self p rest) hcond
          simp only [simStep, if_pos hcond]
          exact addEdge_nodes_mem hp.1 hp.2 _
        · simp [simStep, hcond]
      simp only [List.foldl_cons]
      rw [ih (simStep t sims g p) (fun q hq hc => h1 ▸ h q (List.mem_cons_of_mem _ hq) hc),
        h1]

theorem alookup_simEdgeList (t : ℚ) (sims : Nat → Nat → ℚ) :
    ∀ (ps : List (Nat × Nat)), ps.Nodup → ∀ k : Nat × Nat,
      alookup (simEdgeList t sims ps) k =
        if k ∈ ps ∧ t ≤ sims k.1 k.2 then
          some ⟨"similarity", some (sims k.1 k.2), none⟩
        else none := by
  intro ps
  induction ps with
  | nil => intro _ k; simp [simEdgeList, alookup]
  | cons p rest ih =>
      intro hnd k
      have hndr := (List.nodup_cons.mp hnd).2
      have hpnr := (List.nodup_cons.mp hnd).1
      by_cases hcond : t ≤ sims p.1 p.2
      · have hexp : simEdgeList t sims (p :: rest) =
            (p, ⟨"similarity", some (sims p.1 p.2), none⟩) :: simEdgeList t sims rest := by
          simp [simEdgeList, hcond]
        rw [hexp]
        by_cases hk : k = p
        · subst hk
          simp [alookup, hcond]
        · simp only [alookup, if_neg hk, ih hndr k]
          simp [List.mem_cons, hk]
      · have hexp : simEdgeList t sims (p :: rest) = simEdgeList t sims rest := by
          simp [simEdgeList, hcond]
        rw [hexp, ih hndr k]
        by_cases hk : k = p
        · subst hk
          simp [hcond]
        · simp [List.mem_cons, hk]

theorem simEdgeList_keys (t : ℚ) (sims : Nat → Nat → ℚ) :
    ∀ ps : List (Nat × Nat),
      (simEdgeList t sims ps).map Prod.fst =
        ps.filter fun p => decide (t ≤ sims p.1 p.2) := by
  intro ps
  induction ps with
  | nil => simp [simEdgeList]
  | cons p rest ih =>
      by_cases hcond : t ≤ sims p.1 p.2
      · have hexp : simEdgeList t sims (p :: rest) =
            (p, ⟨"similarity", some (sims p.1 p.2), none⟩) :: simEdgeList t sims rest := by
          simp [simEdgeList, hcond]
        rw [hexp, List.map_cons, ih, List.filter_cons]
        simp [hcond]
      · have hexp : simEdgeList t sims (p :: rest) = simEdgeList t sims rest := by
          simp [simEdgeList, hcond]
        rw [hexp, ih, List.filter_cons]
        simp [hcond]

theorem mem_listPairs_of_pairwise : ∀ {l : List Nat}, l.Pairwise (· < ·) →
    ∀ {a b : Nat}, ((a, b) ∈ listPairs l ↔ a ∈ l ∧ b ∈ l ∧ a < b) := by
  intro l
  induction l with
  | nil => intro _ a b; simp [listPairs]
  | cons x rest ih =>
      intro hp a b
      have hxr := List.pairwise_cons.mp hp
      constructor
      · intro h
        rcases List.mem_append.mp h with h | h
        · rcases List.mem_map.mp h with ⟨b2, hb2, heq⟩
          have hax : a = x := (Prod.mk.injEq .. ▸ heq).1.symm
          have hbb : b = b2 := (Prod.mk.injEq .. ▸ heq).2.symm
          subst hax; subst hbb
          exact ⟨List.mem_cons_self .., List.mem_cons_of_mem _ hb2, hxr.1 b hb2⟩
        · rcases (ih hxr.2).mp h with ⟨ha, hb, hab⟩
          exact ⟨List.mem_cons_of_mem _ ha, List.mem_cons_of_mem _ hb, hab⟩
      · rintro ⟨ha, hb, hab⟩
        simp only [listPairs, List.mem_append]
        rcases List.mem_cons.mp ha with ha | ha
        · subst ha
          rcases List.mem_cons.mp hb with hb | hb
          · omega
          · exact Or.inl (List.mem_map.mpr ⟨b, hb, rfl⟩)
        · rcases List.mem_cons.mp hb with hb | hb
          · have := hxr.1 a ha
            omega
          · exact Or.inr ((ih hxr.2).mpr ⟨ha, hb, hab⟩)

theorem nodup_listPairs : ∀ {l : List Nat}, l.Pairwise (· < ·) → (listPairs l).Nodup := by
  intro l
  induction l with
  | nil => intro _; simp [listPairs]
  | cons x rest ih =>
      intro hp
      have hxr := List.pairwise_cons.mp hp
      have hrestnd : rest.Nodup := hxr.2.imp (fun h => Nat.ne_of_lt h)
      refine List.Nodup.append ?_ (ih hxr.2) ?_
      · exact hrestnd.map (fun a b h => by simpa using congrArg Prod.snd h)
      · intro q hq1 hq2
        rcases List.mem_map.mp hq1 with ⟨b2, _, heq⟩
        have hq1x : q.1 = x := by rw [← heq]
        rcases q with ⟨qa, qb⟩
        have hmem := (mem_listPairs_of_pairwise hxr.2 (a := qa) (b := qb)).mp hq2
        have : x < qa := hxr.1 qa hmem.1
        simp only at hq1x
        omega

theorem listPairs_length : ∀ l : List Nat, (listPairs l).length = l.length.choose 2 := by
  intro l
  induction l with
  | nil => simp [listPairs]
  | cons x rest ih =>
      simp only [listPairs, List.length_append, List.length_map, ih, List.length_cons]
      rw [Nat.choose_succ_succ, Nat.choose_one_right]

theorem catMembers_cons (c : String) (p : Nat × NodeAttrs) (rest : List (Nat × NodeAttrs)) :
    catMembers c (p :: rest) =
      (if truthy p.2.category = some c then [p.1] else []) ++ catMembers c rest := by
  by_cases h : truthy p.2.category = some c <;> simp [catMembers, List.filterMap_cons, h]

theorem catGroups_lookup : ∀ (nl : List (Nat × NodeAttrs)) (acc : List (String × List Nat))
    (c : String),
    alookup (catGroupsFold acc nl) c =
      if (alookup acc c).isNone ∧ catMembers c nl = [] then none
      else some ((alookup acc c).getD [] ++ catMembers c nl) := by
  intro nl
  induction nl with
  | nil =>
      intro acc c
      rcases h : alookup acc c with _ | v <;>
        simp [catGroupsFold, catMembers, h]
  | cons p rest ih =>
      intro acc c
      have hstep : catGroupsFold acc (p :: rest) =
          catGroupsFold
            (match truthy p.2.category with
             | some c2 => aupd acc c2 (fun old => old.getD [] ++ [p.1])
             | none => acc) rest := by
        simp [catGroupsFold, List.foldl_cons]
      rw [hstep]
      rcases htc : truthy p.2.category with _ | c2
      · simp only [htc]
        rw [ih, catMembers_cons, htc]
        simp
      · simp only [htc]
        by_cases hc : c2 = c
        · subst hc
          rw [ih, catMembers_cons, htc]
          simp only [if_pos rfl, alookup_aupd_self]
          rcases hacc : alookup acc c2 with _ | v <;> simp [hacc]
        · have hne : c ≠ c2 := fun h => hc h.symm
          rw [ih, catMembers_cons, htc, alookup_aupd_ne _ _ hne]
          simp [hc]

theorem catGroups_keys_nodup : ∀ (nl : List (Nat × NodeAttrs))
    (acc : List (String × List Nat)), (acc.map Prod.fst).Nodup →
    ((catGroupsFold acc nl).map Prod.fst).Nodup := by
  intro nl
  induction nl with
  | nil => intro acc h; simpa [catGroupsFold] using h
  | cons p rest ih =>
      intro acc h
      have hstep : catGroupsFold acc (p :: rest) =
          catGroupsFold
            (match truthy p.2.category with
             | some c2 => aupd acc c2 (fun old => old.getD [] ++ [p.1])
             | none => acc) rest := by
        simp [catGroupsFold, List.foldl_cons]
      rw [hstep]
      rcases htc : truthy p.2.category with _ | c2
      · exact ih acc h
      · exact ih _ (aupd_keys_nodup c2 _ h)

theorem mem_catGroupsFold {nl : List (Nat × NodeAttrs)} {c : String} {grp : List Nat}
    (h : (c, grp) ∈ catGroupsFold [] nl) :
    grp = catMembers c nl ∧ catMembers c nl ≠ [] := by
  have hnd := catGroups_keys_nodup nl [] (by simp)
  have hlk := alookup_of_mem_nodup hnd h
  rw [catGroups_lookup] at hlk
  by_cases hm : catMembers c nl = []
  · simp [alookup, hm] at hlk
  · simp only [alookup, Option.isNone_none, hm, and_false, if_false, Option.getD_none,
      List.nil_append, Option.some.injEq] at hlk
    exact ⟨hlk.symm, hm⟩

theorem catGroupsFold_mem_of_members {nl : List (Nat × NodeAttrs)} {c : String}
    (h : catMembers c nl ≠ []) : (c, catMembers c nl) ∈ catGroupsFold [] nl := by
  apply alookup_mem
  rw [catGroups_lookup]
  simp [alookup, h]

theorem nested_sym_fold : ∀ (groups : List (String × List Nat)) (g : NXGraph),
    groups.foldl
      (fun g2 pr => (listPairs pr.2).foldl (fun g3 q => symApply g3 (q, pr.1)) g2) g =
    (symWrites groups).foldl symApply g := by
  intro groups
  induction groups with
  | nil => intro g; simp [symWrites]
  | cons pr rest ih =>
      intro g
      simp only [List.foldl_cons, symWrites, List.flatMap_cons, List.foldl_append]
      rw [List.foldl_map]
      exact ih _

theorem add_symbolic_edges_eq_fold (g : NXGraph) :
    add_symbolic_edges g = (symWrites (catGroupsFold [] g.nodes)).foldl symApply g := by
  simp only [add_symbolic_edges]
  exact nested_sym_fold _ g

theorem mem_symWrites {groups : List (String × List Nat)} {w : (Nat × Nat) × String} :
    w ∈ symWrites groups ↔ ∃ grp, (w.2, grp) ∈ groups ∧ w.1 ∈ listPairs grp := by
  simp only [symWrites, List.mem_flatMap, List.mem_map]
  constructor
  · rintro ⟨pr, hpr, q, hq, rfl⟩
    exact ⟨pr.2, hpr, hq⟩
  · rintro ⟨grp, hmem, hq⟩
    exact ⟨(w.2, grp), hmem, w.1, hq, rfl⟩

theorem sym_fold_lookup_notin : ∀ (ws : List ((Nat × Nat) × String)) (g : NXGraph)
    (k : Nat × Nat), (∀ w ∈ ws, canon w.1.1 w.1.2 ≠ k) →
    alookup ((ws.foldl symApply g).edges) k = alookup g.edges k := by
  intro ws
  induction ws with
  | nil => intro g k _; rfl
  | cons w rest ih =>
      intro g k h
      simp only [List.foldl_cons]
      rw [ih _ k (fun w2 hw2 => h w2 (List.mem_cons_of_mem _ hw2))]
      simp only [symApply, NXGraph.addEdge]
      exact alookup_aupd_ne _ _ (Ne.symm (h w (List.mem_cons_self ..)))

theorem sym_fold_lookup_once : ∀ (ws : List ((Nat × Nat) × String)) (g : NXGraph)
    (q : Nat × Nat) (c : String),
    (ws.map Prod.fst).Nodup → (∀ w ∈ ws, w.1.1 < w.1.2) →
    (q, c) ∈ ws →
    alookup ((ws.foldl symApply g).edges) q =
      some (symUpd c ((alookup g.edges q).getD ⟨"", none, none⟩)) := by
  intro ws
  induction ws with
  | nil => intro g q c _ _ h; simp at h
  | cons w rest ih =>
      intro g q c hnd hlt hmem
      rw [List.map_cons] at hnd
      have hnotin := (List.nodup_cons.mp hnd).1
      have hndr := (List.nodup_cons.mp hnd).2
      have hcw : canon w.1.1 w.1.2 = w.1 :=
        canon_lt (hlt w (List.mem_cons_self ..))
      simp only [List.foldl_cons]
      rcases List.mem_cons.mp hmem with hqc | hqc
      · subst hqc
        have hcw2 : canon q.1 q.2 = q :=
          canon_lt (hlt (q, c) (List.mem_cons_self ..))
        rw [sym_fold_lookup_notin rest _ q ?hrest]
        case hrest =>
          intro w2 hw2m
          rw [canon_lt (hlt w2 (List.mem_cons_of_mem _ hw2m))]
          intro he
          apply hnotin
          have hfst : w2.1 = q := by
            rcases w2 with ⟨⟨a, b⟩, c2⟩
            simpa using he
          exact hfst ▸ List.mem_map.mpr ⟨w2, hw2m, rfl⟩
        simp only [symApply, NXGraph.addEdge, hcw2, alookup_aupd_self]
      · have hkey : w.1 ≠ q := by
          intro he
          exact hnotin (he ▸ List.mem_map.mpr ⟨(q, c), hqc, rfl⟩)
        have hlk : alookup (symApply g w).edges q = alookup g.edges q := by
          simp only [symApply, NXGraph.addEdge, hcw]
          exact alookup_aupd_ne _ _ (Ne.symm hkey)
        rw [ih _ q c hndr (fun w2 hw2m => hlt w2 (List.mem_cons_of_mem _ hw2m)) hqc, hlk]

theorem sym_fold_nodes : ∀ (ws : List ((Nat × Nat) × String)) (g : NXGraph),
    (∀ w ∈ ws, w.1.1 ∈ g.nodes.map Prod.fst ∧ w.1.2 ∈ g.nodes.map Prod.fst) →
    (ws.foldl symApply g).nodes = g.nodes := by
  intro ws
  induction ws with
  | nil => intro g _; rfl
  | cons w rest ih =>
      intro g h
      have h1 : (symApply g w).nodes = g.nodes := by
        have hw := h w (List.mem_cons_self ..)
        simp only [symApply]
        exact addEdge_nodes_mem hw.1 hw.2 _
      simp only [List.foldl_cons]
      rw [ih (symApply g w) (fun w2 hw2 => by
        rw [h1]
        exact h w2 (List.mem_cons_of_mem _ hw2)), h1]

theorem catMembers_sub_keys {nl : List (Nat × NodeAttrs)} {c : String} {i : Nat}
    (h : i ∈ catMembers c nl) : i ∈ nl.map Prod.fst := by
  simp only [catMembers, List.mem_filterMap] at h
  rcases h with ⟨p, hp, hcond⟩
  by_cases hc : truthy p.2.category = some c
  · rw [if_pos hc] at hcond
    exact List.mem_map.mpr ⟨p, hp, Option.some.inj hcond⟩
  · rw [if_neg hc] at hcond
    exact absurd hcond (Option.noConfusion)

theorem fold_symApply_keys_nodup : ∀ (ws : List ((Nat × Nat) × String)) (g : NXGraph),
    ((g.edges.map Prod.fst).Nodup) →
    (((ws.foldl symApply g).edges).map Prod.fst).Nodup := by
  intro ws
  induction ws with
  | nil => intro g h; exact h
  | cons w rest ih =>
      intro g h
      simp only [List.foldl_cons]
      exact ih _ (aupd_keys_nodup _ _ h)

theorem fold_symApply_edge_mem : ∀ (ws : List ((Nat × Nat) × String)) (g : NXGraph)
    (e : (Nat × Nat) × EdgeAttrs), e ∈ (ws.foldl symApply g).edges →
    e ∈ g.edges ∨ ∃ w ∈ ws, canon w.1.1 w.1.2 = e.1 := by
  intro ws
  induction ws with
  | nil => intro g e h; exact Or.inl h
  | cons w rest ih =>
      intro g e h
      simp only [List.foldl_cons] at h
      rcases ih _ e h with h2 | h2
      · simp only [symApply, NXGraph.addEdge] at h2
        rcases mem_aupd h2 with h3 | h3
        · exact Or.inl h3
        · exact Or.inr ⟨w, List.mem_cons_self .., h3.1.symm⟩
      · rcases h2 with ⟨w2, hw2, he⟩
        exact Or.inr ⟨w2, List.mem_cons_of_mem _ hw2, he⟩

/-- Unfolding `build` when the node loop completes (enough vector rows
for the zipped prefix). -/
theorem build_graph_eq (b : HSKGBuilder) (sentences : List String)
    (vectors : List (List ℚ)) (sims : Nat → Nat → ℚ)
    (categories : Option (List (Option String)))
    (h : (sentences.zip (effCats sentences categories)).length ≤ vectors.length) :
    b.build sentences vectors sims categories =
      ({ b with graph := add_symbolic_edges (add_similarity_edges b.threshold sims
          vectors.length
          ⟨(enumF 0 (sentences.zip (effCats sentences categories))).map (nodeEntry vectors),
            []⟩) }, none) := by
  have hnp := node_phase_spec vectors (sentences.zip (effCats sentences categories)) 0
    NXGraph.empty (by omega) (by intro p hp; simp [NXGraph.empty] at hp)
  rw [if_pos (by omega)] at hnp
  rw [HSKGBuilder.build, hnp]
  have htk : (sentences.zip (effCats sentences categories)).take (vectors.length - 0) =
      sentences.zip (effCats sentences categories) :=
    List.take_of_length_le (by omega)
  rw [htk]
  rfl

/-- Keys of the node list `build` creates. -/
theorem nodesList_map_fst (l : List (String × Option String)) (vectors : List (List ℚ)) :
    ((enumF 0 l).map (nodeEntry vectors)).map Prod.fst = List.range l.length := by
  rw [List.map_map]
  have : (Prod.fst ∘ nodeEntry vectors) = (Prod.fst : Nat × (String × Option String) → Nat) := by
    funext q
    rfl
  rw [this, enumF_map_fst, List.range_eq_range']

theorem mem_catMembers {nl : List (Nat × NodeAttrs)} {c : String} {i : Nat} :
    i ∈ catMembers c nl ↔ ∃ a, (i, a) ∈ nl ∧ truthy a.category = some c := by
  simp only [catMembers, List.mem_filterMap]
  constructor
  · rintro ⟨p, hp, hcond⟩
    by_cases hc : truthy p.2.category = some c
    · rw [if_pos hc] at hcond
      refine ⟨p.2, ?_, hc⟩
      have : p = (i, p.2) := by
        rw [← Option.some.inj hcond]
      rw [← this]
      exact hp
    · rw [if_neg hc] at hcond
      exact absurd hcond Option.noConfusion
  · rintro ⟨a, ha, hc⟩
    exact ⟨(i, a), ha, by simp [hc]⟩

theorem catMembers_sublist_keys : ∀ (nl : List (Nat × NodeAttrs)) (c : String),
    List.Sublist (catMembers c nl) (nl.map Prod.fst) := by
  intro nl c
  induction nl with
  | nil => simp [catMembers]
  | cons p rest ih =>
      rw [catMembers_cons, List.map_cons]
      by_cases h : truthy p.2.category = some c
      · rw [if_pos h]
        exact List.Sublist.cons₂ _ ih
      · rw [if_neg h]
        exact List.Sublist.cons _ ih

theorem mem_nodesList {l : List (String × Option String)} {vectors : List (List ℚ)}
    {p : Nat × NodeAttrs} :
    p ∈ (enumF 0 l).map (nodeEntry vectors) ↔
      ∃ sc, l[p.1]? = some sc ∧
        p.2 = ⟨some sc.1, sc.2, some ((vectors[p.1]?).getD [])⟩ := by
  simp only [List.mem_map]
  constructor
  · rintro ⟨q, hq, rfl⟩
    rcases mem_enumF.mp hq with ⟨m, hm1, hm2⟩
    refine ⟨q.2, ?_, rfl⟩
    rw [show m = q.1 by omega] at hm2
    exact hm2
  · rintro ⟨sc, hsc, hp2⟩
    refine ⟨(p.1, sc), mem_enumF.mpr ⟨p.1, by omega, hsc⟩, ?_⟩
    simp only [nodeEntry]
    rcases p with ⟨p1, p2⟩
    simp only at hp2
    rw [hp2]

/-- Membership in the category groups the symbolic pass computes over the
node list `build` creates: exactly the indices below the zip length whose
truthy category is `c`. -/
theorem mem_catMembers_nodesList {sentences : List String} {cs : List (Option String)}
    {vectors : List (List ℚ)} {c : String} {i : Nat} :
    i ∈ catMembers c ((enumF 0 (sentences.zip cs)).map (nodeEntry vectors)) ↔
      i < (sentences.zip cs).length ∧ tcat cs i = some c := by
  rw [mem_catMembers]
  constructor
  · rintro ⟨a, ha, hc⟩
    rcases mem_nodesList.mp ha with ⟨sc, hsc, ha2⟩
    have hi : i < (sentences.zip cs).length := by
      by_contra hge
      rw [List.getElem?_eq_none_iff.mpr (by omega)] at hsc
      exact Option.noConfusion hsc
    have hcs : cs[i]? = some sc.2 := (List.getElem?_zip_eq_some.mp hsc).2
    refine ⟨hi, ?_⟩
    rw [tcat, hcs]
    simp only [Option.getD_some]
    have ha3 : a = ⟨some sc.1, sc.2, some ((vectors[i]?).getD [])⟩ := ha2
    rw [ha3] at hc
    exact hc
  · rintro ⟨hi, hc⟩
    have hs : ∃ s, sentences[i]? = some s := by
      rw [List.length_zip] at hi
      exact ⟨sentences[i], List.getElem?_eq_getElem (by omega)⟩
    have hcs : ∃ c0, cs[i]? = some c0 := by
      rw [List.length_zip] at hi
      exact ⟨cs[i], List.getElem?_eq_getElem (by omega)⟩
    rcases hs with ⟨s, hs⟩
    rcases hcs with ⟨c0, hcs⟩
    refine ⟨⟨some s, c0, some ((vectors[i]?).getD [])⟩, ?_, ?_⟩
    · exact mem_nodesList.mpr ⟨(s, c0), List.getElem?_zip_eq_some.mpr ⟨hs, hcs⟩, rfl⟩
    · rw [tcat, hcs] at hc
      simpa using hc

theorem symWrites_map_fst : ∀ groups : List (String × List Nat),
    (symWrites groups).map Prod.fst = groups.flatMap fun pr => listPairs pr.2 := by
  intro groups
  induction groups with
  | nil => rfl
  | cons pr rest ih =>
      have hsplit : symWrites (pr :: rest) =
          ((listPairs pr.2).map fun q => (q, pr.1)) ++ symWrites rest := rfl
      rw [hsplit, List.map_append, ih, List.flatMap_cons]
      congr 1
      rw [List.map_map]
      have hcomp : (Prod.fst ∘ fun q : Nat × Nat => (q, pr.1)) = id := rfl
      rw [hcomp, List.map_id]

theorem symWrites_lt_of {nl : List (Nat × NodeAttrs)}
    (hpw : (nl.map Prod.fst).Pairwise (· < ·)) :
    ∀ w ∈ symWrites (catGroupsFold [] nl), w.1.1 < w.1.2 := by
  intro w hw
  rcases mem_symWrites.mp hw with ⟨grp, hgrp, hq⟩
  have h2 := mem_catGroupsFold hgrp
  have hgpw : grp.Pairwise (· < ·) :=
    h2.1 ▸ List.Pairwise.sublist (catMembers_sublist_keys nl w.2) hpw
  rcases w with ⟨⟨a, b⟩, c⟩
  exact ((mem_listPairs_of_pairwise hgpw).mp hq).2.2

theorem symWrites_keys_nodup_of {nl : List (Nat × NodeAttrs)}
    (hpw : (nl.map Prod.fst).Pairwise (· < ·)) :
    ((symWrites (catGroupsFold [] nl)).map Prod.fst).Nodup := by
  rw [symWrites_map_fst, List.nodup_flatMap]
  have hkeysnd : (nl.map Prod.fst).Nodup := hpw.imp (fun h => Nat.ne_of_lt h)
  refine ⟨?_, ?_⟩
  · rintro ⟨c, grp⟩ hpr
    have h2 := mem_catGroupsFold hpr
    have hgpw : grp.Pairwise (· < ·) :=
      h2.1 ▸ List.Pairwise.sublist (catMembers_sublist_keys nl c) hpw
    exact nodup_listPairs hgpw
  · have hknd : ((catGroupsFold [] nl).map Prod.fst).Nodup :=
      catGroups_keys_nodup nl [] (by simp)
    have hpw2 : (catGroupsFold [] nl).Pairwise (fun a b => a.1 ≠ b.1) :=
      List.pairwise_map.mp hknd
    refine List.Pairwise.imp_of_mem ?_ hpw2
    rintro ⟨c1, g1⟩ ⟨c2, g2⟩ ha hb hne
    have h1 := mem_catGroupsFold ha
    have h2 := mem_catGroupsFold hb
    have hg1pw : g1.Pairwise (· < ·) :=
      h1.1 ▸ List.Pairwise.sublist (catMembers_sublist_keys nl c1) hpw
    have hg2pw : g2.Pairwise (· < ·) :=
      h2.1 ▸ List.Pairwise.sublist (catMembers_sublist_keys nl c2) hpw
    intro q hq1 hq2
    rcases q with ⟨qa, qb⟩
    have hm1 := ((mem_listPairs_of_pairwise hg1pw).mp hq1).1
    have hm2 := ((mem_listPairs_of_pairwise hg2pw).mp hq2).1
    rw [h1.1] at hm1
    rw [h2.1] at hm2
    rcases mem_catMembers.mp hm1 with ⟨a1, ha1, hc1⟩
    rcases mem_catMembers.mp hm2 with ⟨a2, ha2, hc2⟩
    have hl1 := alookup_of_mem_nodup hkeysnd ha1
    have hl2 := alookup_of_mem_nodup hkeysnd ha2
    have ha12 : a1 = a2 := by
      have := hl1.symm.trans hl2
      exact Option.some.inj this
    rw [ha12, hc2] at hc1
    exact hne (by simpa using (Option.some.inj hc1).symm)

/-- The two-phase state of a completed `build` with full-length inputs:
the node loop creates one attributed node per item, and the similarity
pass touches only existing nodes, producing exactly the above-threshold
edge list. -/
theorem build_full_graph (b : HSKGBuilder) (sentences : List String)
    (vectors : List (List ℚ)) (sims : Nat → Nat → ℚ)
    (categories : Option (List (Option String)))
    (hv : vectors.length = sentences.length)
    (hc : (effCats sentences categories).length = sentences.length) :
    ∃ g2 : NXGraph,
      b.build sentences vectors sims categories =
        ({ b with graph := add_symbolic_edges g2 }, none) ∧
      g2.nodes =
        (enumF 0 (sentences.zip (effCats sentences categories))).map (nodeEntry vectors) ∧
      g2.edges = simEdgeList b.threshold sims (rangePairs vectors.length) := by
  have hzip : (sentences.zip (effCats sentences categories)).length = sentences.length := by
    rw [List.length_zip, hc]
    omega
  refine ⟨add_similarity_edges b.threshold sims vectors.length
      ⟨(enumF 0 (sentences.zip (effCats sentences categories))).map (nodeEntry vectors), []⟩,
    build_graph_eq b sentences vectors sims categories (by omega), ?_, ?_⟩
  · simp only [add_similarity_edges]
    apply sim_fold_nodes
    intro p hp _
    have hb := mem_rangePairs.mp hp
    rw [nodesList_map_fst, hzip]
    simp only [List.mem_range]
    omega
  · simp only [add_similarity_edges]
    rw [sim_fold_edges b.threshold sims (rangePairs vectors.length) _ (nodup_rangePairs _)
      (fun p hp => (mem_rangePairs.mp hp).1) (fun p _ => by simp)]
    simp

/-- Final edge at `(i, j)` when both items carry the same truthy
category: a single merged edge, `kind` overwritten to `symbolic`, the
similarity weight retained when the pair met the threshold. -/
theorem build_lookup_samecat (b : HSKGBuilder) (sentences : List String)
    (vectors : List (List ℚ)) (sims : Nat → Nat → ℚ)
    (categories : Option (List (Option String))) {i j : Nat} {c : String}
    (hv : vectors.length = sentences.length)
    (hc : (effCats sentences categories).length = sentences.length)
    (hij : i < j) (hjn : j < sentences.length)
    (hci : tcat (effCats sentences categories) i = some c)
    (hcj : tcat (effCats sentences categories) j = some c) :
    alookup (b.build sentences vectors sims categories).1.graph.edges (i, j) =
      some ⟨"symbolic",
        if b.threshold ≤ sims i j then some (sims i j) else none, some c⟩ := by
  obtain ⟨g2, hbuild, hnodes, hedges⟩ :=
    build_full_graph b sentences vectors sims categories hv hc
  have hzip : (sentences.zip (effCats sentences categories)).length = sentences.length := by
    rw [List.length_zip, hc]
    omega
  have hpw : (g2.nodes.map Prod.fst).Pairwise (· < ·) := by
    rw [hnodes, nodesList_map_fst]
    exact List.pairwise_lt_range _
  have him : i ∈ catMembers c g2.nodes := by
    rw [hnodes]
    exact mem_catMembers_nodesList.mpr ⟨by omega, hci⟩
  have hjm : j ∈ catMembers c g2.nodes := by
    rw [hnodes]
    exact mem_catMembers_nodesList.mpr ⟨by omega, hcj⟩
  have hgpw : (catMembers c g2.nodes).Pairwise (· < ·) :=
    List.Pairwise.sublist (catMembers_sublist_keys g2.nodes c) hpw
  have hpair : (i, j) ∈ listPairs (catMembers c g2.nodes) :=
    (mem_listPairs_of_pairwise hgpw).mpr ⟨him, hjm, hij⟩
  have hgrpmem : (c, catMembers c g2.nodes) ∈ catGroupsFold [] g2.nodes :=
    catGroupsFold_mem_of_members (List.ne_nil_of_mem him)
  have hw : ((i, j), c) ∈ symWrites (catGroupsFold [] g2.nodes) :=
    mem_symWrites.mpr ⟨catMembers c g2.nodes, hgrpmem, hpair⟩
  rw [hbuild]
  show alookup (add_symbolic_edges g2).edges (i, j) = _
  rw [add_symbolic_edges_eq_fold,
    sym_fold_lookup_once _ _ _ _ (symWrites_keys_nodup_of hpw) (symWrites_lt_of hpw) hw,
    hedges, alookup_simEdgeList _ _ _ (nodup_rangePairs _)]
  by_cases hcond : b.threshold ≤ sims i j
  · rw [if_pos ⟨mem_rangePairs.mpr ⟨hij, by omega⟩, hcond⟩, if_pos hcond]
    rfl
  · rw [if_neg (fun hcon => hcond hcon.2), if_neg hcond]
    rfl

/-- Final edge at `(i, j)` when the two items do not share a truthy
category: exactly the similarity edge, present iff the pair met the
threshold. -/
theorem build_lookup_diffcat (b : HSKGBuilder) (sentences : List String)
    (vectors : List (List ℚ)) (sims : Nat → Nat → ℚ)
    (categories : Option (List (Option String))) {i j : Nat}
    (hv : vectors.length = sentences.length)
    (hc : (effCats sentences categories).length = sentences.length)
    (hij : i < j) (hjn : j < sentences.length)
    (hdiff : ∀ c : String, ¬(tcat (effCats sentences categories) i = some c ∧
      tcat (effCats sentences categories) j = some c)) :
    alookup (b.build sentences vectors sims categories).1.graph.edges (i, j) =
      (if b.threshold ≤ sims i j then
        some ⟨"similarity", some (sims i j), none⟩
      else none) := by
  obtain ⟨g2, hbuild, hnodes, hedges⟩ :=
    build_full_graph b sentences vectors sims categories hv hc
  have hpw : (g2.nodes.map Prod.fst).Pairwise (· < ·) := by
    rw [hnodes, nodesList_map_fst]
    exact List.pairwise_lt_range _
  have hnone : ∀ w ∈ symWrites (catGroupsFold [] g2.nodes),
      canon w.1.1 w.1.2 ≠ (i, j) := by
    intro w hw heq
    have hlt := symWrites_lt_of hpw w hw
    rw [canon_lt hlt] at heq
    have hw1 : w.1 = (i, j) := by
      rcases w with ⟨⟨a, b⟩, c0⟩
      simpa using heq
    rcases mem_symWrites.mp hw with ⟨grp, hgrp, hq⟩
    have h2 := mem_catGroupsFold hgrp
    have hgpw : grp.Pairwise (· < ·) :=
      h2.1 ▸ List.Pairwise.sublist (catMembers_sublist_keys g2.nodes w.2) hpw
    rw [hw1] at hq
    have hm := (mem_listPairs_of_pairwise hgpw).mp hq
    rw [h2.1, hnodes] at hm
    exact hdiff w.2
      ⟨(mem_catMembers_nodesList.mp hm.1).2, (mem_catMembers_nodesList.mp hm.2.1).2⟩
  rw [hbuild]
  show alookup (add_symbolic_edges g2).edges (i, j) = _
  rw [add_symbolic_edges_eq_fold, sym_fold_lookup_notin _ _ _ hnone, hedges,
    alookup_simEdgeList _ _ _ (nodup_rangePairs _)]
  by_cases hcond : b.threshold ≤ sims i j
  · rw [if_pos ⟨mem_rangePairs.mpr ⟨hij, by omega⟩, hcond⟩, if_pos hcond]
  · rw [if_neg (fun hcon => hcond hcon.2), if_neg hcond]

/-- Every edge key of a completed full-length `build` is an ordered pair
of item indices. -/
theorem build_edge_mem (b : HSKGBuilder) (sentences : List String)
    (vectors : List (List ℚ)) (sims : Nat → Nat → ℚ)
    (categories : Option (List (Option String)))
    (hv : vectors.length = sentences.length)
    (hc : (effCats sentences categories).length = sentences.length)
    {e : (Nat × Nat) × EdgeAttrs}
    (he : e ∈ (b.build sentences vectors sims categories).1.graph.edges) :
    e.1.1 < e.1.2 ∧ e.1.2 < sentences.length := by
  obtain ⟨g2, hbuild, hnodes, hedges⟩ :=
    build_full_graph b sentences vectors sims categories hv hc
  have hzip : (sentences.zip (effCats sentences categories)).length = sentences.length := by
    rw [List.length_zip, hc]
    omega
  have hpw : (g2.nodes.map Prod.fst).Pairwise (· < ·) := by
    rw [hnodes, nodesList_map_fst]
    exact List.pairwise_lt_range _
  rw [hbuild] at he
  have he2 : e ∈ (add_symbolic_edges g2).edges := he
  rw [add_symbolic_edges_eq_fold] at he2
  rcases fold_symApply_edge_mem _ _ _ he2 with h | ⟨w, hw, hkey⟩
  · rw [hedges] at h
    have hk : e.1 ∈ (simEdgeList b.threshold sims (rangePairs vectors.length)).map Prod.fst :=
      List.mem_map_of_mem Prod.fst h
    rw [simEdgeList_keys] at hk
    have hb := mem_rangePairs.mp (List.mem_of_mem_filter hk)
    omega
  · have hlt := symWrites_lt_of hpw w hw
    rw [canon_lt hlt] at hkey
    rcases mem_symWrites.mp hw with ⟨grp, hgrp, hq⟩
    have h2 := mem_catGroupsFold hgrp
    have hgpw : grp.Pairwise (· < ·) :=
      h2.1 ▸ List.Pairwise.sublist (catMembers_sublist_keys g2.nodes w.2) hpw
    have hm := (mem_listPairs_of_pairwise hgpw).mp
      (show (w.1.1, w.1.2) ∈ listPairs grp from hq)
    rw [h2.1, hnodes] at hm
    have hj2 := (mem_catMembers_nodesList.mp hm.2.1).1
    rw [hzip] at hj2
    rw [← hkey]
    exact ⟨hlt, hj2⟩

/-- A completed full-length `build` stores at most one edge per
unordered pair. -/
theorem build_edges_nodup (b : HSKGBuilder) (sentences : List String)
    (vectors : List (List ℚ)) (sims : Nat → Nat → ℚ)
    (categories : Option (List (Option String)))
    (hv : vectors.length = sentences.length)
    (hc : (effCats sentences categories).length = sentences.length) :
    (((b.build sentences vectors sims categories).1.graph.edges).map Prod.fst).Nodup := by
  obtain ⟨g2, hbuild, hnodes, hedges⟩ :=
    build_full_graph b sentences vectors sims categories hv hc
  rw [hbuild]
  show (((add_symbolic_edges g2).edges).map Prod.fst).Nodup
  rw [add_symbolic_edges_eq_fold]
  apply fold_symApply_keys_nodup
  rw [hedges, simEdgeList_keys]
  exact (nodup_rangePairs _).filter _

/-- The member list of category `c` as the symbolic pass sees it, as a
filtered index range. -/
theorem catMembers_nodesList_eq (sentences : List String) (cs : List (Option String))
    (vectors : List (List ℚ)) (c : String) :
    catMembers c ((enumF 0 (sentences.zip cs)).map (nodeEntry vectors)) =
      (List.range (sentences.zip cs).length).filter
        fun i => decide (tcat cs i = some c) := by
  apply List.eq_of_perm_of_sorted (r := (· ≤ ·))
  · have h1 : (catMembers c ((enumF 0 (sentences.zip cs)).map (nodeEntry vectors))).Nodup := by
      have hpw : (((enumF 0 (sentences.zip cs)).map (nodeEntry vectors)).map
          Prod.fst).Pairwise (· < ·) := by
        rw [nodesList_map_fst]
        exact List.pairwise_lt_range _
      exact (List.Pairwise.sublist (catMembers_sublist_keys _ c) hpw).imp
        (fun h => Nat.ne_of_lt h)
    have h2 : ((List.range (sentences.zip cs).length).filter
        (fun i => decide (tcat cs i = some c))).Nodup :=
      (List.nodup_range _).filter _
    rw [List.perm_ext_iff_of_nodup h1 h2]
    intro i
    rw [mem_catMembers_nodesList, List.mem_filter, List.mem_range]
    simp
  · exact List.Pairwise.imp (fun h => Nat.le_of_lt h)
      (List.Pairwise.sublist (catMembers_sublist_keys _ c)
        (by rw [nodesList_map_fst]; exact List.pairwise_lt_range _))
  · exact List.Pairwise.imp (fun h => Nat.le_of_lt h)
      (List.Pairwise.sublist (List.filter_sublist _) (List.pairwise_lt_range _))

theorem mem_of_mem_listPairs : ∀ {l : List Nat} {a b : Nat},
    (a, b) ∈ listPairs l → a ∈ l ∧ b ∈ l := by
  intro l
  induction l with
  | nil => intro a b h; simp [listPairs] at h
  | cons x rest ih =>
      intro a b h
      rcases List.mem_append.mp h with h | h
      · rcases List.mem_map.mp h with ⟨b2, hb2, heq⟩
        have hax : a = x := (Prod.mk.injEq .. ▸ heq).1.symm
        have hbb : b = b2 := (Prod.mk.injEq .. ▸ heq).2.symm
        subst hax; subst hbb
        exact ⟨List.mem_cons_self .., List.mem_cons_of_mem _ hb2⟩
      · have := ih h
        exact ⟨List.mem_cons_of_mem _ this.1, List.mem_cons_of_mem _ this.2⟩

/-- The symbolic pass never creates a node: every clique member already
is a node of the graph. -/
theorem add_symbolic_edges_nodes (g : NXGraph) : (add_symbolic_edges g).nodes = g.nodes := by
  rw [add_symbolic_edges_eq_fold]
  apply sym_fold_nodes
  intro w hw
  rcases mem_symWrites.mp hw with ⟨grp, hgrp, hq⟩
  have h2 := mem_catGroupsFold hgrp
  have hmem := mem_of_mem_listPairs (show (w.1.1, w.1.2) ∈ listPairs grp from hq)
  rw [h2.1] at hmem
  exact ⟨catMembers_sub_keys hmem.1, catMembers_sub_keys hmem.2⟩

theorem effCats_some {sentences : List String} {cs : List (Option String)} (h : cs ≠ []) :
    effCats sentences (some cs) = cs := by
  cases cs with
  | nil => exact absurd rfl h
  | cons c rest => rfl

/-! ## Claim C1 -/

/-- Claim C1 as stated is false: with two items that share the non-null
category `goal` and whose embeddings are identical (`cosine_similarity`
of `[[1], [1]]` is the all-ones matrix, so the pair is at threshold
`0.7`), the finished graph holds exactly ONE edge between 0 and 1 — a
merged edge with `kind = "symbolic"` carrying both the similarity weight
and the category label — not two parallel edges, and no edge tagged
`kind = "similarity"` at all (`networkx.Graph` is a simple graph; the
symbolic `add_edge` overwrote `kind`). -/
theorem C1_counterexample :
    (mkRat 7 10 ≤ (1 : ℚ)) ∧
    ((HSKGBuilder.mk (mkRat 7 10) NXGraph.empty).build ["a", "b"] [[1], [1]]
      (fun _ _ => 1) (some [some "goal", some "goal"])).1.graph.edges =
      [((0, 1), ⟨"symbolic", some 1, some "goal"⟩)] ∧
    "symbolic" ≠ "similarity" := by decide

/-- C1 amended: for every unordered pair `(i, j)` sharing the same
truthy category with similarity at or above the threshold, the graph
contains exactly one edge between `i` and `j` (edge keys are
duplicate-free): a single merged edge with `kind = "symbolic"`, the
shared category as `label`, and the cosine similarity retained as
`weight`.  The similarity edge is overwritten in place rather than
coexisting (simple-graph semantics, not multigraph). -/
theorem C1_amended (b : HSKGBuilder) (sentences : List String)
    (vectors : List (List ℚ)) (sims : Nat → Nat → ℚ)
    (categories : Option (List (Option String))) {i j : Nat} {c : String}
    (hv : vectors.length = sentences.length)
    (hc : (effCats sentences categories).length = sentences.length)
    (hij : i < j) (hjn : j < sentences.length)
    (hci : tcat (effCats sentences categories) i = some c)
    (hcj : tcat (effCats sentences categories) j = some c)
    (hsim : b.threshold ≤ sims i j) :
    alookup (b.build sentences vectors sims categories).1.graph.edges (i, j) =
      some ⟨"symbolic", some (sims i j), some c⟩ ∧
    (((b.build sentences vectors sims categories).1.graph.edges).map Prod.fst).Nodup := by
  refine ⟨?_, build_edges_nodup b sentences vectors sims categories hv hc⟩
  rw [build_lookup_samecat b sentences vectors sims categories hv hc hij hjn hci hcj,
    if_pos hsim]

/-- Witness for C1: the merged edge on a concrete three-item input. -/
theorem C1_witness :
    alookup ((HSKGBuilder.mk (mkRat 7 10) NXGraph.empty).build ["a", "b", "c"]
      [[1], [1], [1]] (fun _ _ => 1)
      (some [some "goal", some "goal", none])).1.graph.edges (0, 1) =
      some ⟨"symbolic", some 1, some "goal"⟩ :=
  (C1_amended (HSKGBuilder.mk (mkRat 7 10) NXGraph.empty) ["a", "b", "c"]
    [[1], [1], [1]] (fun _ _ => 1) (some [some "goal", some "goal", none])
    (by decide) (by decide) (by decide) (by decide) (by decide) (by decide)
    (by decide)).1

/-! ## Claim C2 -/

/-- Claim C2 as stated is false: items 0 and 1 have cosine similarity 1
(identical embeddings), at or above the default threshold `0.7`, yet the
finished graph holds no edge tagged `kind = "similarity"` between them —
the pair also shares category `g`, and the symbolic pass overwrote the
edge's `kind` to `"symbolic"` in place. -/
theorem C2_counterexample :
    (mkRat 7 10 ≤ (1 : ℚ)) ∧
    ((HSKGBuilder.mk (mkRat 7 10) NXGraph.empty).build ["x", "y"] [[2], [2]]
      (fun _ _ => 1) (some [some "g", some "g"])).1.graph.edges =
      [((0, 1), ⟨"symbolic", some 1, some "g"⟩)] ∧
    "symbolic" ≠ "similarity" := by decide

/-- C2 amended: for pairs `(i, j)`, `i < j`, that do NOT share a truthy
category, the graph contains exactly one edge tagged `kind =
"similarity"` carrying the cosine similarity as weight iff the
similarity is at or above the threshold (edge keys are duplicate-free,
and a pair below threshold has no edge at all).  For a pair that does
share a truthy category and is at or above threshold, the single edge is
instead tagged `kind = "symbolic"`, retaining the similarity as weight —
so the claimed iff fails exactly on those pairs. -/
theorem C2_amended (b : HSKGBuilder) (sentences : List String)
    (vectors : List (List ℚ)) (sims : Nat → Nat → ℚ)
    (categories : Option (List (Option String))) {i j : Nat}
    (hv : vectors.length = sentences.length)
    (hc : (effCats sentences categories).length = sentences.length)
    (hij : i < j) (hjn : j < sentences.length) :
    ((∀ c : String, ¬(tcat (effCats sentences categories) i = some c ∧
        tcat (effCats sentences categories) j = some c)) →
      alookup (b.build sentences vectors sims categories).1.graph.edges (i, j) =
        (if b.threshold ≤ sims i j then
          some ⟨"similarity", some (sims i j), none⟩
        else none)) ∧
    (∀ c : String, tcat (effCats sentences categories) i = some c →
      tcat (effCats sentences categories) j = some c →
      b.threshold ≤ sims i j →
      alookup (b.build sentences vectors sims categories).1.graph.edges (i, j) =
        some ⟨"symbolic", some (sims i j), some c⟩) ∧
    (((b.build sentences vectors sims categories).1.graph.edges).map Prod.fst).Nodup := by
  refine ⟨?_, ?_, build_edges_nodup b sentences vectors sims categories hv hc⟩
  · intro hdiff
    exact build_lookup_diffcat b sentences vectors sims categories hv hc hij hjn hdiff
  · intro c hci hcj hsim
    rw [build_lookup_samecat b sentences vectors sims categories hv hc hij hjn hci hcj,
      if_pos hsim]

/-- Witness for C2: a similarity edge between two items of distinct
categories, on a concrete input. -/
theorem C2_witness :
    alookup ((HSKGBuilder.mk (mkRat 7 10) NXGraph.empty).build ["x", "y"]
      [[1], [1]] (fun _ _ => 1) (some [some "a", some "b"])).1.graph.edges (0, 1) =
      some ⟨"similarity", some 1, none⟩ := by
  have h := (C2_amended (HSKGBuilder.mk (mkRat 7 10) NXGraph.empty) ["x", "y"]
    [[1], [1]] (fun _ _ => 1) (some [some "a", some "b"]) (i := 0) (j := 1)
    (by decide) (by decide) (by decide) (by decide)).1 (by
      intro c hcc
      have e1 : c = "a" := by
        have h1 := hcc.1
        rw [show tcat (effCats ["x", "y"] (some [some "a", some "b"])) 0 = some "a"
          by decide] at h1
        exact (Option.some.inj h1).symm
      have e2 : c = "b" := by
        have h2 := hcc.2
        rw [show tcat (effCats ["x", "y"] (some [some "a", some "b"])) 1 = some "b"
          by decide] at h2
        exact (Option.some.inj h2).symm
      rw [e1] at e2
      exact absurd e2 (by decide))
  rw [h, if_pos (by decide)]

/-! ## Claim C3 -/

/-- Claim C3 as stated is false in both directions.  With two sentences
and a single vector row, `build` raises an `IndexError` from
`vectors[idx]` (there is no `ShapeMismatch` check anywhere in the
builder) *after* having added node 0, so the builder's graph is left
holding a strict non-empty subset of the intended nodes.  With one
sentence and two vector rows — also a row-count mismatch — no error is
raised at all. -/
theorem C3_counterexample :
    ((HSKGBuilder.mk (mkRat 7 10) NXGraph.empty).build ["a", "b"] [[1]]
      (fun _ _ => 0) none) =
      ({ threshold := mkRat 7 10,
         graph := ⟨[(0, ⟨some "a", none, some [1]⟩)], []⟩ }, some .indexError) ∧
    ((HSKGBuilder.mk (mkRat 7 10) NXGraph.empty).build ["a"] [[1], [2]]
      (fun _ _ => 0) none).2 = none := by decide

/-- C3 amended: with categories covering every sentence, a call whose
vector row count is *smaller* than `len(sentences)` fails with an
index-out-of-range error (no `ShapeMismatch` check exists) and leaves
the builder's graph holding exactly the first `rows` nodes — a partial
graph; a call whose row count is *larger* raises no error at all. -/
theorem C3_amended (b : HSKGBuilder) (sentences : List String)
    (vectors : List (List ℚ)) (sims : Nat → Nat → ℚ)
    (categories : Option (List (Option String)))
    (hc : (effCats sentences categories).length = sentences.length) :
    (vectors.length < sentences.length →
      (b.build sentences vectors sims categories).2 = some .indexError ∧
      (b.build sentences vectors sims categories).1.graph.nodes.map Prod.fst =
        List.range vectors.length) ∧
    (sentences.length ≤ vectors.length →
      (b.build sentences vectors sims categories).2 = none) := by
  have hzip : (sentences.zip (effCats sentences categories)).length = sentences.length := by
    rw [List.length_zip, hc]
    omega
  constructor
  · intro hlt
    have hnp := node_phase_spec vectors (sentences.zip (effCats sentences categories)) 0
      NXGraph.empty (by omega) (by intro p hp; simp [NXGraph.empty] at hp)
    rw [if_neg (by omega)] at hnp
    have hbuild : b.build sentences vectors sims categories =
        ({ b with graph :=
            ⟨(enumF 0 ((sentences.zip (effCats sentences categories)).take
              (vectors.length - 0))).map (nodeEntry vectors), []⟩ }, some .indexError) := by
      rw [HSKGBuilder.build, hnp]
      rfl
    rw [hbuild]
    refine ⟨rfl, ?_⟩
    show ((enumF 0 _).map (nodeEntry vectors)).map Prod.fst = _
    rw [nodesList_map_fst, List.length_take]
    congr 1
    omega
  · intro hge
    rw [build_graph_eq b sentences vectors sims categories (by omega)]

/-- Witness for C3: both branches at concrete inputs. -/
theorem C3_witness :
    (((HSKGBuilder.mk (mkRat 7 10) NXGraph.empty).build ["a", "b", "c"] [[1], [2]]
      (fun _ _ => 0) none).2 = some .indexError ∧
      ((HSKGBuilder.mk (mkRat 7 10) NXGraph.empty).build ["a", "b", "c"] [[1], [2]]
        (fun _ _ => 0) none).1.graph.nodes.map Prod.fst = List.range 2) ∧
    ((HSKGBuilder.mk (mkRat 7 10) NXGraph.empty).build ["a"] [[1]]
      (fun _ _ => 0) none).2 = none := by
  constructor
  · exact (C3_amended (HSKGBuilder.mk (mkRat 7 10) NXGraph.empty) ["a", "b", "c"]
      [[1], [2]] (fun _ _ => 0) none (by decide)).1 (by decide)
  · exact (C3_amended (HSKGBuilder.mk (mkRat 7 10) NXGraph.empty) ["a"] [[1]]
      (fun _ _ => 0) none (by decide)).2 (by decide)

/-- Node keys of a completed `build` whose above-threshold similarity
pairs all stay below the zipped-node count: exactly the zipped-prefix
indices (the similarity pass re-creates no trailing node in that case,
and the symbolic pass never creates nodes). -/
theorem build_nodes_of_le (b : HSKGBuilder) (sentences : List String)
    (vectors : List (List ℚ)) (sims : Nat → Nat → ℚ)
    (categories : Option (List (Option String)))
    (h : (sentences.zip (effCats sentences categories)).length ≤ vectors.length)
    (hbelow : ∀ p ∈ rangePairs vectors.length, b.threshold ≤ sims p.1 p.2 →
      p.2 < (sentences.zip (effCats sentences categories)).length) :
    (b.build sentences vectors sims categories).1.graph.nodes.map Prod.fst =
      List.range (sentences.zip (effCats sentences categories)).length ∧
    (b.build sentences vectors sims categories).2 = none := by
  rw [build_graph_eq b sentences vectors sims categories h]
  refine ⟨?_, rfl⟩
  show (add_symbolic_edges (add_similarity_edges b.threshold sims vectors.length
      ⟨(enumF 0 (sentences.zip (effCats sentences categories))).map (nodeEntry vectors),
       []⟩)).nodes.map Prod.fst = _
  rw [add_symbolic_edges_nodes]
  have hsimn : (add_similarity_edges b.threshold sims vectors.length
      ⟨(enumF 0 (sentences.zip (effCats sentences categories))).map (nodeEntry vectors),
       []⟩).nodes =
      (enumF 0 (sentences.zip (effCats sentences categories))).map (nodeEntry vectors) := by
    simp only [add_similarity_edges]
    apply sim_fold_nodes
    intro p hp hcond
    have hj := hbelow p hp hcond
    have hij := (mem_rangePairs.mp hp).1
    constructor
    · show p.1 ∈ ((enumF 0 _).map (nodeEntry vectors)).map Prod.fst
      rw [nodesList_map_fst]
      exact List.mem_range.mpr (by omega)
    · show p.2 ∈ ((enumF 0 _).map (nodeEntry vectors)).map Prod.fst
      rw [nodesList_map_fst]
      exact List.mem_range.mpr (by omega)
  rw [hsimn, nodesList_map_fst]

/-! ## Claim C10 -/

/-- Claim C10 as stated is false: two sentences with identical unit
embeddings (`cosine_similarity` all ones) and a one-element categories
list raise no error and the node loop creates only node 0 — but the
similarity pass, which ranges over all vector rows, re-creates node 1
implicitly via `add_edge`, so the finished graph holds 2 nodes, not
`len(categories) = 1`. -/
theorem C10_counterexample :
    (List.length [some "g"] < List.length ["a", "b"]) ∧
    ((HSKGBuilder.mk (mkRat 7 10) NXGraph.empty).build ["a", "b"] [[1], [1]]
      (fun _ _ => 1) (some [some "g"])).2 = none ∧
    ((HSKGBuilder.mk (mkRat 7 10) NXGraph.empty).build ["a", "b"] [[1], [1]]
      (fun _ _ => 1) (some [some "g"])).1.graph.nodes.length = 2 := by decide

/-- C10 amended: a non-empty categories list strictly shorter than
`sentences` raises no error, and the zipped node loop creates only
`len(categories)` attributed nodes (trailing sentences silently
dropped); the graph then holds exactly the node indices
`0..len(categories)-1` *provided* no above-threshold similarity pair
involves a dropped index — otherwise `add_edge` re-creates trailing bare
nodes, as the counterexample shows.  An empty categories list (or
`None`) is instead expanded to all-null of full length, giving one node
per sentence. -/
theorem C10_amended (b : HSKGBuilder) (sentences : List String)
    (vectors : List (List ℚ)) (sims : Nat → Nat → ℚ) {cs : List (Option String)}
    (hne : cs ≠ []) (hlt : cs.length < sentences.length)
    (hv : vectors.length = sentences.length)
    (hbelow : ∀ p ∈ rangePairs vectors.length,
      b.threshold ≤ sims p.1 p.2 → p.2 < cs.length) :
    (b.build sentences vectors sims (some cs)).2 = none ∧
    (b.build sentences vectors sims (some cs)).1.graph.nodes.map Prod.fst =
      List.range cs.length ∧
    (b.build sentences vectors sims (some [])).1.graph.nodes.map Prod.fst =
      List.range sentences.length := by
  have hec : effCats sentences (some cs) = cs := effCats_some hne
  have hzip : (sentences.zip (effCats sentences (some cs))).length = cs.length := by
    rw [hec, List.length_zip]
    omega
  have h1 := build_nodes_of_le b sentences vectors sims (some cs) (by omega)
    (by intro p hp hcond; rw [hzip]; exact hbelow p hp hcond)
  rw [hzip] at h1
  have hzip2 : (sentences.zip (effCats sentences (some []))).length = sentences.length := by
    simp [effCats, List.length_zip]
  have h2 := build_nodes_of_le b sentences vectors sims (some []) (by omega)
    (by
      intro p hp hcond
      rw [hzip2]
      have := (mem_rangePairs.mp hp).2
      omega)
  rw [hzip2] at h2
  exact ⟨h1.2, h1.1, h2.1⟩

/-- Witness for C10: truncation at a concrete input whose only pair
stays below the threshold. -/
theorem C10_witness :
    ((HSKGBuilder.mk (mkRat 7 10) NXGraph.empty).build ["a", "b"] [[1], [0]]
      (fun i j => if i = j then 1 else 0) (some [some "g"])).2 = none ∧
    ((HSKGBuilder.mk (mkRat 7 10) NXGraph.empty).build ["a", "b"] [[1], [0]]
      (fun i j => if i = j then 1 else 0) (some [some "g"])).1.graph.nodes.map Prod.fst =
      List.range 1 ∧
    ((HSKGBuilder.mk (mkRat 7 10) NXGraph.empty).build ["a", "b"] [[1], [0]]
      (fun i j => if i = j then 1 else 0) (some [])).1.graph.nodes.map Prod.fst =
      List.range 2 :=
  C10_amended (HSKGBuilder.mk (mkRat 7 10) NXGraph.empty) ["a", "b"] [[1], [0]]
    (fun i j => if i = j then 1 else 0) (by decide) (by decide) (by decide) (by decide)

/-! ## Claim C8 -/

/-- Claim C8 as stated is false for the empty-string category, which is
non-null but falsy: two items sharing category `""` (m = 2, so the claim
demands a complete symbolic subgraph with 2·1/2 = 1 edge) with
orthogonal embeddings produce a graph with no edges at all, because
`_add_symbolic_edges` groups by `if cat:`, which skips `""` exactly like
`None`. -/
theorem C8_counterexample :
    (some "" ≠ (none : Option String)) ∧
    ((HSKGBuilder.mk (mkRat 7 10) NXGraph.empty).build ["a", "b"] [[1, 0], [0, 1]]
      (fun i j => if i = j then 1 else 0) (some [some "", some ""])).1.graph.edges =
      [] := by decide

/-- C8 amended: for every *truthy* (non-null, non-empty) category `c`,
writing `grp` for the indices whose truthy category is `c`: every
ordered pair of `grp` carries an edge tagged `kind = "symbolic"` with
label `c`, and the number of edges so tagged is exactly
`m·(m-1)/2` for `m = grp.length` — the induced symbolic subgraph is a
complete graph.  (Items whose category is null or `""` belong to no
`grp` and contribute no symbolic edge.) -/
theorem C8_amended (b : HSKGBuilder) (sentences : List String)
    (vectors : List (List ℚ)) (sims : Nat → Nat → ℚ)
    (categories : Option (List (Option String))) (c : String)
    (hv : vectors.length = sentences.length)
    (hc : (effCats sentences categories).length = sentences.length) :
    (∀ i ∈ (List.range sentences.length).filter
        (fun i => decide (tcat (effCats sentences categories) i = some c)),
     ∀ j ∈ (List.range sentences.length).filter
        (fun i => decide (tcat (effCats sentences categories) i = some c)),
      i < j →
      alookup (b.build sentences vectors sims categories).1.graph.edges (i, j) =
        some ⟨"symbolic",
          if b.threshold ≤ sims i j then some (sims i j) else none, some c⟩) ∧
    ((b.build sentences vectors sims categories).1.graph.edges.filter
        (fun e => decide (e.2.kind = "symbolic" ∧ e.2.label = some c))).length =
      ((List.range sentences.length).filter
        (fun i => decide (tcat (effCats sentences categories) i = some c))).length *
      (((List.range sentences.length).filter
        (fun i => decide (tcat (effCats sentences categories) i = some c))).length
        - 1) / 2 := by
  have hcomplete : ∀ i ∈ (List.range sentences.length).filter
      (fun i => decide (tcat (effCats sentences categories) i = some c)),
      ∀ j ∈ (List.range sentences.length).filter
        (fun i => decide (tcat (effCats sentences categories) i = some c)),
      i < j →
      alookup (b.build sentences vectors sims categories).1.graph.edges (i, j) =
        some ⟨"symbolic",
          if b.threshold ≤ sims i j then some (sims i j) else none, some c⟩ := by
    intro i hi j hj hij
    simp only [List.mem_filter, List.mem_range, decide_eq_true_eq] at hi hj
    exact build_lookup_samecat b sentences vectors sims categories hv hc hij hj.1
      hi.2 hj.2
  refine ⟨hcomplete, ?_⟩
  have hnodup_edges := build_edges_nodup b sentences vectors sims categories hv hc
  have hgrppw : ((List.range sentences.length).filter
      (fun i => decide (tcat (effCats sentences categories) i = some c))).Pairwise
      (· < ·) :=
    List.Pairwise.sublist (List.filter_sublist _) (List.pairwise_lt_range _)
  have hKnodup : (((b.build sentences vectors sims categories).1.graph.edges.filter
      (fun e => decide (e.2.kind = "symbolic" ∧ e.2.label = some c))).map
      Prod.fst).Nodup :=
    ((List.filter_sublist _).map Prod.fst).nodup hnodup_edges
  have hLnodup := nodup_listPairs hgrppw
  have hiff : ∀ k : Nat × Nat,
      k ∈ ((b.build sentences vectors sims categories).1.graph.edges.filter
        (fun e => decide (e.2.kind = "symbolic" ∧ e.2.label = some c))).map Prod.fst ↔
      k ∈ listPairs ((List.range sentences.length).filter
        (fun i => decide (tcat (effCats sentences categories) i = some c))) := by
    intro k
    constructor
    · intro hk
      rcases List.mem_map.mp hk with ⟨e, hef, hfst⟩
      rcases e with ⟨⟨i0, j0⟩, attrs⟩
      rcases List.mem_filter.mp hef with ⟨he, hpred⟩
      rw [decide_eq_true_eq] at hpred
      have hbounds := build_edge_mem b sentences vectors sims categories hv hc he
      have hb1 : i0 < j0 := hbounds.1
      have hb2 : j0 < sentences.length := hbounds.2
      have hlk : alookup (b.build sentences vectors sims categories).1.graph.edges
          (i0, j0) = some attrs :=
        alookup_of_mem_nodup hnodup_edges he
      by_cases hsame : ∃ c2 : String,
          tcat (effCats sentences categories) i0 = some c2 ∧
          tcat (effCats sentences categories) j0 = some c2
      · rcases hsame with ⟨c2, h1, h2⟩
        have hlook := build_lookup_samecat b sentences vectors sims categories hv hc
          hb1 hb2 h1 h2
        have heq : attrs = ⟨"symbolic",
            if b.threshold ≤ sims i0 j0 then some (sims i0 j0) else none, some c2⟩ :=
          Option.some.inj (hlk.symm.trans hlook)
        have hc2 : c2 = c := by
          have hp2 := hpred.2
          rw [heq] at hp2
          exact Option.some.inj hp2
        subst hc2
        rw [← hfst]
        refine (mem_listPairs_of_pairwise hgrppw).mpr ⟨?_, ?_, hb1⟩
        · simp only [List.mem_filter, List.mem_range, decide_eq_true_eq]
          exact ⟨by omega, h1⟩
        · simp only [List.mem_filter, List.mem_range, decide_eq_true_eq]
          exact ⟨hb2, h2⟩
      · push_neg at hsame
        have hlook := build_lookup_diffcat b sentences vectors sims categories hv hc
          hb1 hb2 (fun c2 hcc => hsame c2 hcc.1 hcc.2)
        rw [hlk] at hlook
        by_cases hcond : b.threshold ≤ sims i0 j0
        · rw [if_pos hcond] at hlook
          have h3 := hpred.1
          rw [Option.some.inj hlook] at h3
          dsimp only at h3
          exact absurd h3 (by decide)
        · rw [if_neg hcond] at hlook
          exact absurd hlook (by simp)
    · intro hk
      have hm := (mem_listPairs_of_pairwise hgrppw).mp
        (show (k.1, k.2) ∈ _ from hk)
      simp only [List.mem_filter, List.mem_range, decide_eq_true_eq] at hm
      have hlook := build_lookup_samecat b sentences vectors sims categories hv hc
        hm.2.2 hm.2.1.1 hm.1.2 hm.2.1.2
      have hmem := alookup_mem hlook
      refine List.mem_map.mpr ⟨((k.1, k.2), ⟨"symbolic",
        if b.threshold ≤ sims k.1 k.2 then some (sims k.1 k.2) else none, some c⟩),
        List.mem_filter.mpr ⟨hmem, by simp⟩, rfl⟩
  have hperm := (List.perm_ext_iff_of_nodup hKnodup hLnodup).mpr hiff
  have hlen1 : ((b.build sentences vectors sims categories).1.graph.edges.filter
      (fun e => decide (e.2.kind = "symbolic" ∧ e.2.label = some c))).length =
      (((b.build sentences vectors sims categories).1.graph.edges.filter
        (fun e => decide (e.2.kind = "symbolic" ∧ e.2.label = some c))).map
        Prod.fst).length := (List.length_map _ _).symm
  rw [hlen1, hperm.length_eq, listPairs_length, Nat.choose_two_right]

/-- Witness for C8: a three-item input with two members of category `g`:
one symbolic edge labelled `g`, count `2·1/2 = 1`. -/
theorem C8_witness :
    alookup ((HSKGBuilder.mk (mkRat 7 10) NXGraph.empty).build ["a", "b", "c"]
      [[1], [1], [1]] (fun i j => if i = j then 1 else 0)
      (some [some "g", none, some "g"])).1.graph.edges (0, 2) =
      some ⟨"symbolic", none, some "g"⟩ ∧
    (((HSKGBuilder.mk (mkRat 7 10) NXGraph.empty).build ["a", "b", "c"]
      [[1], [1], [1]] (fun i j => if i = j then 1 else 0)
      (some [some "g", none, some "g"])).1.graph.edges.filter
        (fun e => decide (e.2.kind = "symbolic" ∧ e.2.label = some "g"))).length =
      2 * (2 - 1) / 2 := by
  have h := C8_amended (HSKGBuilder.mk (mkRat 7 10) NXGraph.empty) ["a", "b", "c"]
    [[1], [1], [1]] (fun i j => if i = j then 1 else 0)
    (some [some "g", none, some "g"]) "g" (by decide) (by decide)
  constructor
  · have h02 := h.1 0 (by decide) 2 (by decide) (by decide)
    rw [h02, if_neg (by decide)]
  · have hcount := h.2
    rw [show ((List.range (List.length ["a", "b", "c"])).filter
      (fun i => decide (tcat (effCats ["a", "b", "c"]
        (some [some "g", none, some "g"])) i = some "g"))).length = 2 from by decide]
      at hcount
    exact hcount

/-! ## Claim C6 -/

/-- C6 confirmed: `add_relation` with either endpoint id absent fails
with the dangling-endpoint `ValueError` (the spec's `DanglingEndpoint`)
before any mutation: the returned state is the unchanged graph — node
map, relation map, both indices and the structural view are identical,
so in particular node and relation counts are unchanged. -/
theorem C6_add_relation_dangling (kg : KnowledgeGraph) (rel : Relation) (now : Nat)
    (h : alookup kg.nodes rel.source.id = none ∨
      alookup kg.nodes rel.target.id = none) :
    kg.add_relation rel now = (kg, some .danglingEndpoint) := by
  rcases h with h | h
  · rw [KnowledgeGraph.add_relation, if_pos (by rw [h]; rfl)]
  · rw [KnowledgeGraph.add_relation]
    by_cases hs : (alookup kg.nodes rel.source.id).isNone
    · rw [if_pos hs]
    · rw [if_neg hs, if_pos (by rw [h]; rfl)]

/-- Witness for C6: a dangling relation against an empty graph. -/
theorem C6_witness :
    (KnowledgeGraph.init "G").add_relation exRel 5 =
      (KnowledgeGraph.init "G", some .danglingEndpoint) :=
  C6_add_relation_dangling (KnowledgeGraph.init "G") exRel 5 (Or.inl rfl)

/-! ## Claim C5 -/

/-- Claim C5 as stated is false on the re-key part: updating relation
`r1` of `exKG2` (an `a → b` relation, present in the structural view)
with its endpoints swapped does not succeed as a re-key.  The code
removes the structural edge under the NEW relation's
`(source id, target id, relation id)` key, which does not exist, so the
call raises the `networkx` edge-not-found error, leaves the structural
view untouched (still keyed under the old endpoints) — and has already
overwritten the relation-map entry. -/
theorem C5_counterexample :
    (exKG2.update_relation exRelSwap 5).2 = some .nxError ∧
    (exKG2.update_relation exRelSwap 5).1.graph = exKG2.graph ∧
    alookup (exKG2.update_relation exRelSwap 5).1.relations "r1" =
      some { exRelSwap with updated_at := 5 } := by decide

/-- C5 amended: `update_relation` fails with `NotFound` when the id is
absent; when present it first overwrites the relation-map entry with the
passed relation carrying a refreshed `updated_at`, then removes the
structural-view edge under the NEW relation's (source id, target id,
relation id) key: when that key holds an edge (endpoints unchanged) the
entry is replaced and the call succeeds, and when it does not (source or
target changed) the call fails with the `networkx` edge-not-found error,
leaving the structural view unchanged but the relation map already
updated — a changed-endpoint update is NOT a clean re-key. -/
theorem C5_amended (kg : KnowledgeGraph) (rel : Relation) (now : Nat) :
    (alookup kg.relations rel.id = none →
      kg.update_relation rel now = (kg, some .notFound)) ∧
    ((alookup kg.relations rel.id).isSome →
      alookup (kg.update_relation rel now).1.relations rel.id =
        some { rel with updated_at := now } ∧
      ((rel.source.id, rel.target.id, rel.id) ∉ kg.graph.edges.map Prod.fst →
        (kg.update_relation rel now).2 = some .nxError ∧
        (kg.update_relation rel now).1.graph = kg.graph) ∧
      ((rel.source.id, rel.target.id, rel.id) ∈ kg.graph.edges.map Prod.fst →
        (kg.update_relation rel now).2 = none)) := by
  constructor
  · intro h
    rw [KnowledgeGraph.update_relation, if_neg (by rw [h]; simp)]
  · intro hs
    refine ⟨?_, ?_, ?_⟩
    · rw [KnowledgeGraph.update_relation, if_pos hs]
      simp only [MultiDiGraph.remove_edge]
      by_cases hmem : (rel.source.id, rel.target.id, rel.id) ∈ kg.graph.edges.map Prod.fst
      · rw [if_pos hmem]
        show alookup (aupd kg.relations rel.id _) rel.id = _
        rw [alookup_aupd_self]
      · rw [if_neg hmem]
        show alookup (aupd kg.relations rel.id _) rel.id = _
        rw [alookup_aupd_self]
    · intro hnot
      rw [KnowledgeGraph.update_relation, if_pos hs]
      simp only [MultiDiGraph.remove_edge]
      rw [if_neg hnot]
      exact ⟨rfl, rfl⟩
    · intro hmem
      rw [KnowledgeGraph.update_relation, if_pos hs]
      simp only [MultiDiGraph.remove_edge]
      rw [if_pos hmem]

/-- Witness for C5: all three behaviours at concrete inputs —
`NotFound` on a fresh id, the edge-not-found failure after the
relation-map overwrite on an endpoint swap, success when endpoints are
unchanged. -/
theorem C5_witness :
    exKG2.update_relation ⟨"zz", exNodeA, exNodeB, .RELATED_TO, [], 0, 0⟩ 5 =
      (exKG2, some .notFound) ∧
    alookup (exKG2.update_relation exRelSwap 5).1.relations "r1" =
      some { exRelSwap with updated_at := 5 } ∧
    (exKG2.update_relation exRelSwap 5).2 = some .nxError ∧
    (exKG2.update_relation exRel 5).2 = none := by
  refine ⟨(C5_amended exKG2 ⟨"zz", exNodeA, exNodeB, .RELATED_TO, [], 0, 0⟩ 5).1
    (by decide), ?_, ?_, ?_⟩
  · exact ((C5_amended exKG2 exRelSwap 5).2 (by decide)).1
  · exact (((C5_amended exKG2 exRelSwap 5).2 (by decide)).2.1 (by decide)).1
  · exact ((C5_amended exKG2 exRel 5).2 (by decide)).2.2 (by decide)

/-! ## Claim C9 -/

/-- Claim C9 as stated is false: `exKG2` holds relation `r1` with its
edge in the structural view; after `update_node` on node `a` (which has
an incident relation) the relation map still holds `r1` but the
structural view holds no edge at all — `update_node` removes the node
with `graph.remove_node`, which drops every incident edge, and re-adds
the node bare. -/
theorem C9_counterexample :
    exKG2.relations.length = 1 ∧ exKG2.graph.edges.length = 1 ∧
    (exKG2.update_node { exNodeA with name := "A2" } 7).2 = none ∧
    (exKG2.update_node { exNodeA with name := "A2" } 7).1.relations.length = 1 ∧
    (exKG2.update_node { exNodeA with name := "A2" } 7).1.graph.edges = [] := by
  decide

/-- C9 amended: a successful `update_node` leaves the relation map
unchanged but silently drops every structural-view edge incident to the
updated node (removal plus bare re-insertion), breaking the
one-edge-per-relation consistency for the node's incident relations. -/
theorem C9_amended (kg : KnowledgeGraph) (node : Node) (now : Nat)
    (kg2 : KnowledgeGraph) (h : kg.update_node node now = (kg2, none)) :
    kg2.relations = kg.relations ∧
    kg2.graph.edges = kg.graph.edges.filter
      (fun e => decide (e.1.1 ≠ node.id) && decide (e.1.2.1 ≠ node.id)) := by
  rw [KnowledgeGraph.update_node] at h
  rcases h1 : alookup kg.nodes node.id with _ | old_node
  · simp only [h1] at h
    exact Option.noConfusion (congrArg Prod.snd h)
  · simp only [h1] at h
    rcases h2 : alookup kg.node_name_index old_node.name with _ | bucket
    · simp only [h2] at h
      exact Option.noConfusion (congrArg Prod.snd h)
    · simp only [h2] at h
      rcases h3 : removeNodeById bucket old_node.id with _ | bucket2
      · simp only [h3] at h
        exact Option.noConfusion (congrArg Prod.snd h)
      · simp only [h3] at h
        rcases h4 : removeNodeById ((alookup kg.node_type_index old_node.type).getD [])
            old_node.id with _ | tbucket2
        · simp only [h4] at h
          exact Option.noConfusion (congrArg Prod.snd h)
        · simp only [h4] at h
          rcases h5 : kg.graph.remove_node node.id with _ | G2
          · simp only [h5] at h
            exact Option.noConfusion (congrArg Prod.snd h)
          · simp only [h5] at h
            simp only [MultiDiGraph.remove_node] at h5
            by_cases hm : node.id ∈ kg.graph.nodes.map Prod.fst
            · rw [if_pos hm] at h5
              have hG2 := Option.some.inj h5
              have hkg2 : kg2 = _ := (Prod.mk.injEq .. ▸ h).1.symm
              rw [hkg2]
              refine ⟨rfl, ?_⟩
              show (G2.add_node node.id _).edges = _
              rw [← hG2]
              rfl
            · rw [if_neg hm] at h5
              exact absurd h5 Option.noConfusion

/-- Witness for C9: the amended statement at the concrete graph. -/
theorem C9_witness :
    (exKG2.update_node { exNodeA with name := "A2" } 7).1.relations =
      exKG2.relations ∧
    (exKG2.update_node { exNodeA with name := "A2" } 7).1.graph.edges =
      exKG2.graph.edges.filter
        (fun e => decide (e.1.1 ≠ ({ exNodeA with name := "A2" } : Node).id) &&
          decide (e.1.2.1 ≠ ({ exNodeA with name := "A2" } : Node).id)) :=
  C9_amended exKG2 { exNodeA with name := "A2" } 7
    (exKG2.update_node { exNodeA with name := "A2" } 7).1 (by decide)

theorem alookup_append_of_none {α β : Type} [DecidableEq α] {l1 : List (α × β)}
    (l2 : List (α × β)) {k : α} (h : alookup l1 k = none) :
    alookup (l1 ++ l2) k = alookup l2 k := by
  induction l1 with
  | nil => rfl
  | cons p rest ih =>
      by_cases hk : k = p.1
      · simp [alookup, hk] at h
      · simp only [alookup, hk, if_false, List.cons_append, if_neg hk] at h ⊢
        exact ih h

theorem nodeType_ofName_name (t : NodeType) : NodeType.ofName t.name = some t := by
  cases t <;> rfl

theorem relationType_ofName_name (r : RelationType) :
    RelationType.ofName r.name = some r := by
  cases r <;> rfl

/-- `Node.from_dict ∘ Node.to_dict` reproduces the node with the
embedding dropped (only the presence flag crosses the dict form). -/
theorem node_from_to_dict (n : Node) :
    Node.from_dict n.to_dict = .ok { n with embedding := none } := by
  simp only [Node.from_dict, Node.to_dict, nodeType_ofName_name]

/-- The node pass of `from_dict` over dicts produced by `to_dict`:
appends one embedding-stripped node per dict to the graph's node map and
to the lookup table, touching neither relations nor the name. -/
theorem fromDictNodes_spec (now : Nat) :
    ∀ (ns : List (String × Node)) (kg0 : KnowledgeGraph) (lu0 : List (String × Node)),
      (∀ p ∈ ns, p.1 = p.2.id) →
      (ns.map Prod.fst).Nodup →
      (∀ p ∈ ns, alookup kg0.nodes p.2.id = none) →
      (∀ p ∈ ns, alookup lu0 p.2.id = none) →
      ∃ kg1,
        fromDictNodes now (ns.map (fun p => p.2.to_dict)) kg0 lu0 =
          .ok (kg1, lu0 ++ ns.map (fun p => (p.2.id, { p.2 with embedding := none }))) ∧
        kg1.nodes =
          kg0.nodes ++ ns.map (fun p => (p.2.id, { p.2 with embedding := none })) ∧
        kg1.relations = kg0.relations ∧
        kg1.name = kg0.name := by
  intro ns
  induction ns with
  | nil =>
      intro kg0 lu0 _ _ _ _
      exact ⟨kg0, by simp [fromDictNodes], by simp, rfl, rfl⟩
  | cons p rest ih =>
      intro kg0 lu0 hkey hnd hkg hlu
      have hkeyp : p.1 = p.2.id := hkey p (List.mem_cons_self ..)
      have hkgp : alookup kg0.nodes p.2.id = none := hkg p (List.mem_cons_self ..)
      have hlup : alookup lu0 p.2.id = none := hlu p (List.mem_cons_self ..)
      rw [List.map_cons] at hnd
      have hrestnd := (List.nodup_cons.mp hnd).2
      have hpnotin := (List.nodup_cons.mp hnd).1
      have hneid : ∀ q ∈ rest, q.2.id ≠ p.2.id := by
        intro q hq he
        apply hpnotin
        rw [← hkeyp, ← hkey q (List.mem_cons_of_mem _ hq)] at he
        exact he ▸ List.mem_map.mpr ⟨q, hq, rfl⟩
      -- the graph state after the head insertion
      have hstep : fromDictNodes now ((p :: rest).map (fun p => p.2.to_dict)) kg0 lu0 =
          fromDictNodes now (rest.map (fun p => p.2.to_dict))
            { kg0 with
                nodes := kg0.nodes ++ [(p.2.id, { p.2 with embedding := none })],
                node_name_index := aupd kg0.node_name_index
                  ({ p.2 with embedding := none } : Node).name
                  (fun old => old.getD [] ++ [{ p.2 with embedding := none }]),
                node_type_index := aupd kg0.node_type_index
                  ({ p.2 with embedding := none } : Node).type
                  (fun old => old.getD [] ++ [{ p.2 with embedding := none }]),
                graph := kg0.graph.add_node p.2.id
                  ({ p.2 with embedding := none } : Node).to_dict }
            (aupd lu0 p.2.id (fun _ => { p.2 with embedding := none })) := by
        rw [List.map_cons, fromDictNodes, node_from_to_dict]
        simp only [KnowledgeGraph.add_node, hkgp, Option.isSome_none, Bool.false_eq_true,
          if_false]
      rw [hstep]
      obtain ⟨kg1, heq, hn, hr, hname⟩ := ih
        { kg0 with
            nodes := kg0.nodes ++ [(p.2.id, { p.2 with embedding := none })],
            node_name_index := aupd kg0.node_name_index
              ({ p.2 with embedding := none } : Node).name
              (fun old => old.getD [] ++ [{ p.2 with embedding := none }]),
            node_type_index := aupd kg0.node_type_index
              ({ p.2 with embedding := none } : Node).type
              (fun old => old.getD [] ++ [{ p.2 with embedding := none }]),
            graph := kg0.graph.add_node p.2.id
              ({ p.2 with embedding := none } : Node).to_dict }
        (aupd lu0 p.2.id (fun _ => { p.2 with embedding := none }))
        (fun q hq => hkey q (List.mem_cons_of_mem _ hq)) hrestnd
        (by
          intro q hq
          show alookup (kg0.nodes ++ [(p.2.id, { p.2 with embedding := none })]) q.2.id
            = none
          rw [alookup_append_of_none _ (hkg q (List.mem_cons_of_mem _ hq))]
          simp [alookup, hneid q hq])
        (by
          intro q hq
          rw [alookup_aupd_ne _ _ (hneid q hq)]
          exact hlu q (List.mem_cons_of_mem _ hq))
      refine ⟨kg1, ?_, ?_, hr, hname⟩
      · rw [heq, aupd_not_mem _ (by rw [← alookup_eq_none]; exact hlup)]
        simp
      · rw [hn]
        simp

/-- The relation pass of `from_dict` over dicts produced by `to_dict`:
appends one relation per dict, with endpoints resolved through the
lookup table; node map and name are untouched, and the relations agree
with the originals on the `relSig` signature (id, endpoint ids, type,
properties, timestamps). -/
theorem fromDictRels_spec (now : Nat) :
    ∀ (rs : List (String × Relation)) (kg0 : KnowledgeGraph) (lu : List (String × Node)),
      (∀ p ∈ rs, p.1 = p.2.id) →
      (rs.map Prod.fst).Nodup →
      (∀ p ∈ rs, alookup kg0.relations p.2.id = none) →
      (∀ k v, (k, v) ∈ lu → v.id = k) →
      (∀ p ∈ rs, (alookup lu p.2.source.id).isSome ∧
        (alookup lu p.2.target.id).isSome) →
      (∀ p ∈ rs, (alookup kg0.nodes p.2.source.id).isSome ∧
        (alookup kg0.nodes p.2.target.id).isSome) →
      ∃ kg1,
        fromDictRels now (rs.map (fun p => p.2.to_dict)) kg0 lu = .ok kg1 ∧
        kg1.nodes = kg0.nodes ∧
        kg1.name = kg0.name ∧
        kg1.relations.map relSig = kg0.relations.map relSig ++ rs.map relSig := by
  intro rs
  induction rs with
  | nil =>
      intro kg0 lu _ _ _ _ _ _
      exact ⟨kg0, by simp [fromDictRels], rfl, rfl, by simp⟩
  | cons p rest ih =>
      intro kg0 lu hkey hnd hkg hluv hlus hkgn
      have hkeyp : p.1 = p.2.id := hkey p (List.mem_cons_self ..)
      rw [List.map_cons] at hnd
      have hrestnd := (List.nodup_cons.mp hnd).2
      have hpnotin := (List.nodup_cons.mp hnd).1
      have hneid : ∀ q ∈ rest, q.2.id ≠ p.2.id := by
        intro q hq he
        apply hpnotin
        rw [← hkeyp, ← hkey q (List.mem_cons_of_mem _ hq)] at he
        exact he ▸ List.mem_map.mpr ⟨q, hq, rfl⟩
      obtain ⟨s, hslk⟩ := Option.isSome_iff_exists.mp (hlus p (List.mem_cons_self ..)).1
      obtain ⟨t, htlk⟩ := Option.isSome_iff_exists.mp (hlus p (List.mem_cons_self ..)).2
      have hsid : s.id = p.2.source.id := hluv _ s (alookup_mem hslk)
      have htid : t.id = p.2.target.id := hluv _ t (alookup_mem htlk)
      have hfrom : Relation.from_dict p.2.to_dict lu =
          .ok ⟨p.2.id, s, t, p.2.type, p.2.properties, p.2.created_at,
            p.2.updated_at⟩ := by
        simp only [Relation.from_dict, Relation.to_dict, hslk, htlk,
          relationType_ofName_name]
      have hsrcsome : (alookup kg0.nodes s.id).isSome := by
        rw [hsid]
        exact (hkgn p (List.mem_cons_self ..)).1
      have htgtsome : (alookup kg0.nodes t.id).isSome := by
        rw [htid]
        exact (hkgn p (List.mem_cons_self ..)).2
      have hnotdup : alookup kg0.relations p.2.id = none :=
        hkg p (List.mem_cons_self ..)
      have hstep : fromDictRels now ((p :: rest).map (fun p => p.2.to_dict)) kg0 lu =
          fromDictRels now (rest.map (fun p => p.2.to_dict))
            { kg0 with
                relations := kg0.relations ++
                  [(p.2.id, ⟨p.2.id, s, t, p.2.type, p.2.properties, p.2.created_at,
                    p.2.updated_at⟩)],
                graph := kg0.graph.add_edge s.id t.id p.2.id
                  (Relation.to_dict ⟨p.2.id, s, t, p.2.type, p.2.properties,
                    p.2.created_at, p.2.updated_at⟩) } lu := by
        rw [List.map_cons, fromDictRels, hfrom]
        simp only [KnowledgeGraph.add_relation]
        rw [if_neg (by
          rcases hx : alookup kg0.nodes s.id with _ | v
          · rw [hx] at hsrcsome; exact absurd hsrcsome (by simp)
          · simp [hx])]
        rw [if_neg (by
          rcases hx : alookup kg0.nodes t.id with _ | v
          · rw [hx] at htgtsome; exact absurd htgtsome (by simp)
          · simp [hx])]
        rw [if_neg (by simp [hnotdup])]
      rw [hstep]
      obtain ⟨kg1, heq, hn, hname, hrels⟩ := ih
        { kg0 with
            relations := kg0.relations ++
              [(p.2.id, ⟨p.2.id, s, t, p.2.type, p.2.properties, p.2.created_at,
                p.2.updated_at⟩)],
            graph := kg0.graph.add_edge s.id t.id p.2.id
              (Relation.to_dict ⟨p.2.id, s, t, p.2.type, p.2.properties,
                p.2.created_at, p.2.updated_at⟩) } lu
        (fun q hq => hkey q (List.mem_cons_of_mem _ hq)) hrestnd
        (by
          intro q hq
          show alookup (kg0.relations ++ _) q.2.id = none
          rw [alookup_append_of_none _ (hkg q (List.mem_cons_of_mem _ hq))]
          simp [alookup, hneid q hq])
        hluv
        (fun q hq => hlus q (List.mem_cons_of_mem _ hq))
        (fun q hq => hkgn q (List.mem_cons_of_mem _ hq))
      refine ⟨kg1, heq, hn, hname, ?_⟩
      rw [hrels]
      have hsig : relSig (p.2.id, (⟨p.2.id, s, t, p.2.type, p.2.properties,
          p.2.created_at, p.2.updated_at⟩ : Relation)) = relSig p := by
        simp [relSig, hsid, htid, hkeyp]
      show (kg0.relations ++ _).map relSig ++ _ = _
      simp only [List.map_append, List.map_cons, List.map_nil, List.singleton_append,
        List.append_assoc, List.nil_append, List.cons_append]
      rw [hsig]

/-! ## Claim C7 -/

/-- C7 confirmed: on a well-formed graph (maps keyed by id,
duplicate-free, endpoints present), `from_dict (to_dict kg)` succeeds
and reproduces the name, the node map exactly — ids, types, names,
properties, labels and timestamps, with only the embedding vector
dropped (`embedding := none`; the dict form carries a presence flag
only) — and the relation map exactly on ids, endpoint ids, types,
properties and timestamps. -/
theorem C7_roundtrip (kg : KnowledgeGraph) (now : Nat) (h : wellFormedKG kg) :
    ∃ kg2, KnowledgeGraph.from_dict kg.to_dict now = .ok kg2 ∧
      kg2.name = kg.name ∧
      kg2.nodes = kg.nodes.map (fun p => (p.1, { p.2 with embedding := none })) ∧
      kg2.relations.map relSig = kg.relations.map relSig := by
  obtain ⟨hk1, hk2, hk3, hk4, hk5⟩ := h
  obtain ⟨kg1, heq1, hn1, hr1, hname1⟩ := fromDictNodes_spec now kg.nodes
    (KnowledgeGraph.init kg.name) [] hk1 hk2 (fun p _ => rfl) (fun p _ => rfl)
  have hlukeys : ((kg.nodes.map (fun p =>
      (p.2.id, ({ p.2 with embedding := none } : Node)))).map Prod.fst) =
      kg.nodes.map Prod.fst := by
    rw [List.map_map]
    apply List.map_congr_left
    intro p hp
    exact (hk1 p hp).symm
  have hluv : ∀ k v, (k, v) ∈ kg.nodes.map (fun p =>
      (p.2.id, ({ p.2 with embedding := none } : Node))) → v.id = k := by
    intro k v hm
    rcases List.mem_map.mp hm with ⟨p, _, he⟩
    have h1 : p.2.id = k := (Prod.mk.injEq .. ▸ he).1
    have h2 : ({ p.2 with embedding := none } : Node) = v := (Prod.mk.injEq .. ▸ he).2
    rw [← h2]
    exact h1
  have hsome : ∀ i, i ∈ kg.nodes.map Prod.fst →
      (alookup (kg.nodes.map (fun p =>
        (p.2.id, ({ p.2 with embedding := none } : Node)))) i).isSome := by
    intro i hi
    rw [alookup_isSome, hlukeys]
    exact hi
  obtain ⟨kg2, heq2, hn2, hname2, hrels2⟩ := fromDictRels_spec now kg.relations kg1
    (kg.nodes.map (fun p => (p.2.id, { p.2 with embedding := none })))
    hk3 hk4
    (by intro q hq; rw [hr1]; rfl)
    hluv
    (by intro q hq; exact ⟨hsome _ (hk5 q hq).1, hsome _ (hk5 q hq).2⟩)
    (by
      intro q hq
      constructor
      · rw [hn1, alookup_append_of_none _ (show alookup
          (KnowledgeGraph.init kg.name).nodes q.2.source.id = none from rfl)]
        exact hsome _ (hk5 q hq).1
      · rw [hn1, alookup_append_of_none _ (show alookup
          (KnowledgeGraph.init kg.name).nodes q.2.target.id = none from rfl)]
        exact hsome _ (hk5 q hq).2)
  have heq1x : fromDictNodes now kg.to_dict.nodes
      (KnowledgeGraph.init kg.to_dict.name) [] =
      .ok (kg1, [] ++ kg.nodes.map (fun p =>
        (p.2.id, { p.2 with embedding := none }))) := heq1
  refine ⟨kg2, ?_, ?_, ?_, ?_⟩
  · rw [KnowledgeGraph.from_dict, heq1x]
    exact heq2
  · rw [hname2, hname1]
    rfl
  · rw [hn2, hn1]
    show (KnowledgeGraph.init kg.name).nodes ++ _ = _
    simp only [KnowledgeGraph.init, List.nil_append]
    apply List.map_congr_left
    intro p hp
    rw [hk1 p hp]
  · rw [hrels2, hr1]
    show (KnowledgeGraph.init kg.name).relations.map relSig ++ _ = _
    simp [KnowledgeGraph.init]

/-- Witness for C7: the round-trip on the concrete two-node, one-relation
graph. -/
theorem C7_witness :
    ∃ kg2, KnowledgeGraph.from_dict exKG2.to_dict 9 = .ok kg2 ∧
      kg2.name = exKG2.name ∧
      kg2.nodes = exKG2.nodes.map (fun p => (p.1, { p.2 with embedding := none })) ∧
      kg2.relations.map relSig = exKG2.relations.map relSig :=
  C7_roundtrip exKG2 9 (by
    refine ⟨by decide, by decide, by decide, by decide, by decide⟩)

theorem saveNodes_mem (gid : String) : ∀ (nds : List NodeDict)
    (acc : List (String × StoredNode)) (q : String × StoredNode),
    q ∈ nds.foldl (fun acc nd => aupd acc nd.id (fun _ => ⟨nd, gid⟩)) acc →
    q ∈ acc ∨ (q.1 ∈ nds.map NodeDict.id ∧ q.2.graph_id = gid) := by
  intro nds
  induction nds with
  | nil => intro acc q h; exact Or.inl h
  | cons nd rest ih =>
      intro acc q h
      rcases ih _ q h with h2 | h2
      · rcases mem_aupd h2 with h3 | h3
        · exact Or.inl h3
        · rcases h3.2 with ⟨o, ho⟩
          refine Or.inr ⟨by simp [h3.1], ?_⟩
          rw [ho]
      · exact Or.inr ⟨List.mem_cons_of_mem _ h2.1, h2.2⟩

theorem saveNodes_lookup_not_mem (gid : String) : ∀ (nds : List NodeDict)
    (acc : List (String × StoredNode)) (k : String), k ∉ nds.map NodeDict.id →
    alookup (nds.foldl (fun acc nd => aupd acc nd.id (fun _ => ⟨nd, gid⟩)) acc) k =
      alookup acc k := by
  intro nds
  induction nds with
  | nil => intro acc k _; rfl
  | cons nd rest ih =>
      intro acc k hk
      simp only [List.map_cons, List.mem_cons] at hk
      push_neg at hk
      rw [List.foldl_cons, ih _ k hk.2, alookup_aupd_ne _ _ hk.1]

theorem saveNodes_lookup_mem (gid : String) : ∀ (nds : List NodeDict)
    (acc : List (String × StoredNode)) (k : String), k ∈ nds.map NodeDict.id →
    ∃ v, alookup (nds.foldl (fun acc nd => aupd acc nd.id (fun _ => ⟨nd, gid⟩)) acc) k =
      some v ∧ v.graph_id = gid := by
  intro nds
  induction nds with
  | nil => intro acc k h; simp at h
  | cons nd rest ih =>
      intro acc k hk
      by_cases hr : k ∈ rest.map NodeDict.id
      · exact ih _ k hr
      · have hkid : k = nd.id := by
          simp only [List.map_cons, List.mem_cons] at hk
          tauto
        rw [List.foldl_cons, saveNodes_lookup_not_mem gid rest _ k hr, hkid,
          alookup_aupd_self]
        exact ⟨_, rfl, rfl⟩

theorem saveNodes_keys_nodup (gid : String) : ∀ (nds : List NodeDict)
    (acc : List (String × StoredNode)), (acc.map Prod.fst).Nodup →
    ((nds.foldl (fun acc nd => aupd acc nd.id (fun _ => ⟨nd, gid⟩)) acc).map
      Prod.fst).Nodup := by
  intro nds
  induction nds with
  | nil => intro acc h; exact h
  | cons nd rest ih =>
      intro acc h
      rw [List.foldl_cons]
      exact ih _ (aupd_keys_nodup _ _ h)

theorem loadNodes_no_match (gid : String) (now : Nat) :
    ∀ (rows : List (String × StoredNode)) (kg : KnowledgeGraph)
      (lu : List (String × Node)), (∀ p ∈ rows, p.2.graph_id ≠ gid) →
      loadNodes gid now rows kg lu = .ok (kg, lu) := by
  intro rows
  induction rows with
  | nil => intro kg lu _; rfl
  | cons row rest ih =>
      intro kg lu h
      rcases row with ⟨key, sn⟩
      rw [loadNodes, if_neg (h (key, sn) (List.mem_cons_self ..))]
      exact ih kg lu (fun p hp => h p (List.mem_cons_of_mem _ hp))

theorem loadRels_empty_lu (gid : String) (now : Nat) :
    ∀ (rows : List (String × StoredRel)) (kg : KnowledgeGraph),
      loadRels gid now rows kg [] = .ok kg := by
  intro rows
  induction rows with
  | nil => intro kg; rfl
  | cons row rest ih =>
      intro kg
      rcases row with ⟨key, sr⟩
      by_cases h : sr.graph_id = gid
      · rw [loadRels, if_pos h]
        exact ih kg
      · rw [loadRels, if_neg h]
        exact ih kg

/-! ## Claim C4 -/

/-- Claim C4 as stated is false: saving the same two-node, one-relation
graph twice (fresh graph id and relation row ids each time) and then
loading the first id yields an empty graph — 0 nodes and 0 relations,
not the saved graph's 2 and 1.  The store keys node rows by node id
alone, so the second save reassigned both node rows to the second graph
id; the first save's relation rows survive but their endpoints no longer
resolve and are silently skipped. -/
theorem C4_counterexample :
    exKG2.nodes.length = 2 ∧ exKG2.relations.length = 1 ∧
    ((InMemoryStorage.empty.save_graph exKG2 none "G1" ["R1"] 0).1.save_graph exKG2
        none "G2" ["R2"] 1).1.load_graph "G1" 2 =
      .ok (KnowledgeGraph.init "G") ∧
    (KnowledgeGraph.init "G").nodes.length = 0 ∧
    (KnowledgeGraph.init "G").relations.length = 0 := by decide

/-- C4 amended: `save_graph` always returns the freshly drawn id and
never overwrites graph metadata or earlier relation rows under other
graph ids — but node rows are keyed by node id alone, so a second save
of the same graph reassigns every one of its node rows to the new graph
id.  `load_graph` on the first id consequently finds the saved metadata
but zero node rows, and skips every relation row (unresolvable
endpoints), returning a graph with the saved name and no nodes or
relations — the first stored copy is not independent of later saves. -/
theorem C4_amended (st : InMemoryStorage) (g : KnowledgeGraph)
    (name1 name2 : Option String) (gid1 gid2 : String)
    (relIds1 relIds2 : List String) (now1 now2 now3 : Nat)
    (hgid : gid1 ≠ gid2)
    (hnd : (st.nodes.map Prod.fst).Nodup)
    (hfresh : ∀ p ∈ st.nodes, p.2.graph_id ≠ gid1) :
    (st.save_graph g name1 gid1 relIds1 now1).2 = gid1 ∧
    (((st.save_graph g name1 gid1 relIds1 now1).1.save_graph g name2 gid2 relIds2
        now2).1.load_graph gid1 now3) =
      .ok (KnowledgeGraph.init (pyOr name1 g.name)) := by
  refine ⟨rfl, ?_⟩
  have hnomatch : ∀ p ∈ ((st.save_graph g name1 gid1 relIds1 now1).1.save_graph g
      name2 gid2 relIds2 now2).1.nodes, p.2.graph_id ≠ gid1 := by
    intro q hq hqid
    have hq2 : q ∈ (g.to_dict.nodes.foldl
        (fun acc nd => aupd acc nd.id (fun _ => ⟨nd, gid2⟩))
        (g.to_dict.nodes.foldl
          (fun acc nd => aupd acc nd.id (fun _ => ⟨nd, gid1⟩)) st.nodes)) := hq
    rcases saveNodes_mem gid2 _ _ q hq2 with h2 | h2
    · rcases saveNodes_mem gid1 _ _ q h2 with h3 | h3
      · exact hfresh q h3 hqid
      · obtain ⟨v, hv, hvgid⟩ := saveNodes_lookup_mem gid2 g.to_dict.nodes
          (g.to_dict.nodes.foldl
            (fun acc nd => aupd acc nd.id (fun _ => ⟨nd, gid1⟩)) st.nodes) q.1 h3.1
        have hnd2 : (((g.to_dict.nodes.foldl
            (fun acc nd => aupd acc nd.id (fun _ => ⟨nd, gid2⟩))
            (g.to_dict.nodes.foldl
              (fun acc nd => aupd acc nd.id (fun _ => ⟨nd, gid1⟩)) st.nodes))).map
            Prod.fst).Nodup :=
          saveNodes_keys_nodup gid2 _ _ (saveNodes_keys_nodup gid1 _ _ hnd)
        have hlq : alookup (g.to_dict.nodes.foldl
            (fun acc nd => aupd acc nd.id (fun _ => ⟨nd, gid2⟩))
            (g.to_dict.nodes.foldl
              (fun acc nd => aupd acc nd.id (fun _ => ⟨nd, gid1⟩)) st.nodes)) q.1 =
            some q.2 :=
          alookup_of_mem_nodup hnd2 (show (q.1, q.2) ∈ _ from hq2)
        rw [hlq] at hv
        rw [← Option.some.inj hv] at hvgid
        rw [hqid] at hvgid
        exact hgid hvgid
    · rw [hqid] at h2
      exact hgid h2.2
  have hlkup : alookup ((st.save_graph g name1 gid1 relIds1 now1).1.save_graph g
      name2 gid2 relIds2 now2).1.graphs gid1 =
      some ⟨gid1, pyOr name1 g.name, now1, now1, g.to_dict.nodes.length,
        g.to_dict.relations.length⟩ := by
    show alookup (aupd (st.save_graph g name1 gid1 relIds1 now1).1.graphs gid2 _)
      gid1 = _
    rw [alookup_aupd_ne _ _ hgid]
    show alookup (aupd st.graphs gid1 _) gid1 = _
    rw [alookup_aupd_self]
  rw [InMemoryStorage.load_graph, hlkup]
  have hload1 : loadNodes gid1 now3 ((st.save_graph g name1 gid1 relIds1
      now1).1.save_graph g name2 gid2 relIds2 now2).1.nodes
      (KnowledgeGraph.init (pyOr name1 g.name)) [] =
      .ok (KnowledgeGraph.init (pyOr name1 g.name), []) :=
    loadNodes_no_match _ _ _ _ _ hnomatch
  show (match loadNodes gid1 now3 ((st.save_graph g name1 gid1 relIds1
      now1).1.save_graph g name2 gid2 relIds2 now2).1.nodes
      (KnowledgeGraph.init (pyOr name1 g.name)) [] with
    | .error e => .error e
    | .ok (kg, lu) => loadRels gid1 now3 ((st.save_graph g name1 gid1 relIds1
        now1).1.save_graph g name2 gid2 relIds2 now2).1.relations kg lu) =
    Except.ok (KnowledgeGraph.init (pyOr name1 g.name))
  rw [hload1]
  exact loadRels_empty_lu _ _ _ _

/-- Witness for C4: the amended statement at a concrete store and
graph. -/
theorem C4_witness :
    (InMemoryStorage.empty.save_graph exKG2 (some "first") "G1" ["R1"] 0).2 = "G1" ∧
    (((InMemoryStorage.empty.save_graph exKG2 (some "first") "G1" ["R1"] 0).1.save_graph
        exKG2 none "G2" ["R2"] 1).1.load_graph "G1" 2) =
      .ok (KnowledgeGraph.init (pyOr (some "first") exKG2.name)) :=
  C4_amended InMemoryStorage.empty exKG2 (some "first") none "G1" "G2" ["R1"] ["R2"]
    0 1 2 (by decide) (by decide) (by decide)
